import Mathlib

/-!
Verification development for the PCSS race-calendar frontend.

The definitions below are a shallow embedding of the JavaScript sources:
  - `CalendarMonth._dateKey`, `CalendarMonth._buildDayGrid`,
    `CalendarMonth._buildWeekRow` (month grid, per-week segment building,
    sorting and greedy lane allocation);
  - `Filters` (chip state, `_toggleChip`, `clearAll`, `filter`, `init`);
  - `CalendarExport` (`_addOneDay`, `_escIcs`, `_generateIcs`);
  - the parsed URL-parameter record of `URLParams.parse`.

Dates are handled exactly as in the source: events carry ISO `YYYY-MM-DD`
strings and all comparisons are lexicographic string comparisons; grid days
are `(year, month, day)` triples with 0-based months, rendered to key
strings by `dateKey` (the embedding of `_dateKey`).  JavaScript `Set`s of
strings are modelled as duplicate-free `List String` in insertion order
(only membership and emptiness are ever consumed).  The JavaScript `Date`
builtins (`daysInMonth`, `getDay`, `setDate(+1)`) are modelled by the
proleptic-Gregorian functions `monthLength`, `dayOfWeek` and `succDate`.
-/

namespace PCSS

/-- Decimal digit character, `digitChar n` for `n < 10`. -/
def digitChar (n : Nat) : Char := Char.ofNat (48 + n)

/-- Fuel-driven recursion for `natDigits` (structural, so that concrete
key strings reduce inside the kernel). -/
def natDigitsAux : Nat → Nat → List Char
  | 0, _ => []
  | fuel + 1, n =>
    if n < 10 then [digitChar n]
    else natDigitsAux fuel (n / 10) ++ [digitChar (n % 10)]

/-- Decimal digits of a natural number, most significant first
(model of JavaScript number-to-string conversion). -/
def natDigits (n : Nat) : List Char := natDigitsAux (n + 1) n

theorem natDigitsAux_fuel :
    ∀ fuel fuel' n, n < fuel → n < fuel' → natDigitsAux fuel n = natDigitsAux fuel' n := by
  intro fuel
  induction fuel with
  | zero => intro fuel' n h; omega
  | succ f ih =>
    intro fuel' n h h'
    match fuel' with
    | 0 => omega
    | f' + 1 =>
      show natDigitsAux (f + 1) n = natDigitsAux (f' + 1) n
      unfold natDigitsAux
      by_cases h10 : n < 10
      · simp [h10]
      · have hdiv : n / 10 < n := Nat.div_lt_self (by omega) (by omega)
        simp only [h10, if_false]
        rw [ih f' (n / 10) (by omega) (by omega)]

/-- The natural recurrence for `natDigits`. -/
theorem natDigits_eq (n : Nat) :
    natDigits n = if n < 10 then [digitChar n] else natDigits (n / 10) ++ [digitChar (n % 10)] := by
  show natDigitsAux (n + 1) n = _
  unfold natDigitsAux
  by_cases h10 : n < 10
  · simp [h10]
  · have hdiv : n / 10 < n := Nat.div_lt_self (by omega) (by omega)
    simp only [h10, if_false]
    rw [natDigitsAux_fuel n (n / 10 + 1) (n / 10) (by omega) (by omega)]
    rfl

/-- `String(x).padStart(2, "0")` on a natural number. -/
def pad2 (n : Nat) : List Char := if n < 10 then '0' :: natDigits n else natDigits n

/-- Embedding of `CalendarMonth._dateKey(y, m, d)`:
the string `y + "-" + pad(m+1) + "-" + pad(d)` with a 0-based month `m`. -/
def dateKey (y m d : Nat) : String :=
  String.mk (natDigits y ++ '-' :: (pad2 (m + 1) ++ '-' :: pad2 d))

/-- The event fields consumed by the calendar frontend
(`dates.start`/`dates.end` are the ISO key strings). -/
structure Event where
  id : String
  name : String
  dateStart : String
  dateEnd : String
  venue : String
  state : String
  disciplines : List String
  circuit : Option String
  ageGroups : List String
  status : String
  pcssConfirmed : Bool
  sourceUrl : String
deriving DecidableEq, Repr

/-- One grid cell of the month view: a calendar day plus the
`outside` flag for fill days borrowed from adjacent months. -/
structure CalendarDay where
  year : Nat
  month : Nat
  day : Nat
  outside : Bool
deriving DecidableEq, Repr

instance : Inhabited CalendarDay := ⟨⟨0, 0, 0, false⟩⟩

/-- Key string of a grid day, as computed inside `_buildWeekRow`. -/
def dayKey (c : CalendarDay) : String := dateKey c.year c.month c.day

/-- One event's occupancy of one week row (`_buildWeekRow`'s segment
objects before lane assignment). -/
structure Segment where
  event : Event
  startCol : Nat
  endCol : Nat
  contLeft : Bool
  contRight : Bool
deriving DecidableEq, Repr

/-- Lexicographic comparison of two character lists by code point: the
JavaScript `<` operator on strings (code-unit comparison; the key strings
here are ASCII). -/
def keyLtb : List Char → List Char → Bool
  | [], [] => false
  | [], _ :: _ => true
  | _ :: _, [] => false
  | a :: as, b :: bs =>
    if a.toNat < b.toNat then true
    else if b.toNat < a.toNat then false
    else keyLtb as bs

/-- Strict string comparison `s < t`, claim-facing `Prop` form. -/
def keyLt (s t : String) : Prop := keyLtb s.data t.data = true

/-- Non-strict string comparison `s ≤ t` (JavaScript `s <= t`, i.e.
`!(t < s)`), claim-facing `Prop` form. -/
def keyLe (s t : String) : Prop := keyLtb t.data s.data = false

instance (s t : String) : Decidable (keyLt s t) :=
  inferInstanceAs (Decidable (_ = _))

instance (s t : String) : Decidable (keyLe s t) :=
  inferInstanceAs (Decidable (_ = _))

/-- Per-event body of the `events.forEach` loop in `_buildWeekRow`:
`none` when the event's date range misses the week, otherwise the segment
with its column mapping and continuation flags. -/
def mkSegment (week : List CalendarDay) (e : Event) : Option Segment :=
  if keyLtb (dayKey (week.getD 6 default)).data e.dateStart.data ||
      keyLtb e.dateEnd.data (dayKey (week.getD 0 default)).data then
    none
  else
    some { event := e,
           startCol :=
             if keyLtb e.dateStart.data (dayKey (week.getD 0 default)).data then 1
             else
               match (week.take 7).findIdx? (fun c => dayKey c == e.dateStart) with
               | some i => i + 1
               | none => 1,
           endCol :=
             if keyLtb (dayKey (week.getD 6 default)).data e.dateEnd.data then 8
             else
               match (week.take 7).findIdx? (fun c => dayKey c == e.dateEnd) with
               | some i => i + 2
               | none => 8,
           contLeft := keyLtb e.dateStart.data (dayKey (week.getD 0 default)).data,
           contRight := keyLtb (dayKey (week.getD 6 default)).data e.dateEnd.data }

/-- The segment candidates of a week row, in event-list order. -/
def buildSegments (week : List CalendarDay) (events : List Event) : List Segment :=
  events.filterMap (mkSegment week)

/-- The sort comparator of `_buildWeekRow` as a total preorder:
ascending start column, ties broken by descending span `endCol - startCol`
(the span subtraction is integer subtraction, as in JavaScript). -/
def segBefore (a b : Segment) : Prop :=
  a.startCol < b.startCol ∨
    (a.startCol = b.startCol ∧
      (b.endCol : Int) - (b.startCol : Int) ≤ (a.endCol : Int) - (a.startCol : Int))

instance : DecidableRel segBefore := fun a b =>
  inferInstanceAs (Decidable (_ ∨ _ ∧ _))

instance : IsTotal Segment segBefore :=
  ⟨fun a b => by unfold segBefore; omega⟩

instance : IsTrans Segment segBefore :=
  ⟨fun a b c hab hbc => by unfold segBefore at *; omega⟩

/-- `segments.sort(...)` — JavaScript array sort is stable, and insertion
sort with the non-strict comparator preorder is the stable sort. -/
def sortSegments (segs : List Segment) : List Segment :=
  List.insertionSort segBefore segs

/-- `lanes[i].some(other => !(seg.endCol <= other.startCol || seg.startCol >= other.endCol))`. -/
def laneConflict (lane : List Segment) (s : Segment) : Bool :=
  lane.any (fun other => !(s.endCol ≤ other.startCol || s.startCol ≥ other.endCol))

/-- The `for (let i = 0; i < lanes.length; i++)` scan: index of the first
lane whose members do not conflict with `s`. -/
def findLane (lanes : List (List Segment)) (s : Segment) : Option Nat :=
  match lanes with
  | [] => none
  | l :: rest => if laneConflict l s then (findLane rest s).map (· + 1) else some 0

/-- One iteration of the lane-packing `segments.forEach`: place `s` in the
first conflict-free lane (appending to it), or open a new lane at index
`lanes.length`; record the `(segment, lane)` assignment. -/
def allocStep (acc : List (List Segment) × List (Segment × Nat)) (s : Segment) :
    List (List Segment) × List (Segment × Nat) :=
  match findLane acc.1 s with
  | some i => (acc.1.set i (acc.1.getD i [] ++ [s]), acc.2 ++ [(s, i)])
  | none => (acc.1 ++ [[s]], acc.2 ++ [(s, acc.1.length)])

/-- The greedy lane packing over a sorted candidate list. -/
def allocLanes (segs : List Segment) : List (List Segment) × List (Segment × Nat) :=
  segs.foldl allocStep ([], [])

/-- Full per-week pipeline of `_buildWeekRow`: overlap selection and column
mapping, stable sort, greedy lane packing; result is each segment with its
assigned lane index. -/
def weekSegments (week : List CalendarDay) (events : List Event) : List (Segment × Nat) :=
  (allocLanes (sortSegments (buildSegments week events))).2

/-- The claim-facing notion of two half-open `[startCol, endCol)` column
ranges intersecting: some column lies in both. -/
def colRangesIntersect (a b : Segment) : Prop :=
  ∃ c : Nat, (a.startCol ≤ c ∧ c < a.endCol) ∧ (b.startCol ≤ c ∧ c < b.endCol)

/-- The week's first-day key, `weekStartKey` in `_buildWeekRow`. -/
def weekStartKey (week : List CalendarDay) : String := dayKey (week.getD 0 default)

/-- The week's last-day key, `weekEndKey` in `_buildWeekRow`. -/
def weekEndKey (week : List CalendarDay) : String := dayKey (week.getD 6 default)

/-- The closed-interval overlap test of `_buildWeekRow`:
`event.start ≤ weekRow[6].date AND event.end ≥ weekRow[0].date`. -/
def overlapsWeek (week : List CalendarDay) (e : Event) : Prop :=
  keyLe e.dateStart (weekEndKey week) ∧ keyLe (weekStartKey week) e.dateEnd

instance (week : List CalendarDay) (e : Event) : Decidable (overlapsWeek week e) :=
  inferInstanceAs (Decidable (_ ∧ _))

theorem mkSegment_isSome (week : List CalendarDay) (e : Event) :
    (mkSegment week e).isSome = true ↔ overlapsWeek week e := by
  unfold mkSegment overlapsWeek keyLe weekStartKey weekEndKey
  rcases h1 : keyLtb (dayKey (week.getD 6 default)).data e.dateStart.data <;>
    rcases h2 : keyLtb e.dateEnd.data (dayKey (week.getD 0 default)).data <;>
      simp

theorem mkSegment_event {week : List CalendarDay} {a : Event} {s : Segment}
    (h : mkSegment week a = some s) : s.event = a := by
  unfold mkSegment at h
  by_cases hc : (keyLtb (dayKey (week.getD 6 default)).data a.dateStart.data ||
      keyLtb a.dateEnd.data (dayKey (week.getD 0 default)).data) = true
  · rw [if_pos hc] at h
    exact absurd h (by simp)
  · rw [if_neg hc] at h
    have h2 := Option.some_inj.mp h
    rw [← h2]

/-- Claim C2, segment-count form: in the candidate list of a week row,
the number of segments carrying event `e` is the number of occurrences of
`e` in the event list when `e` overlaps the week, and zero otherwise. -/
theorem buildSegments_count (week : List CalendarDay) (events : List Event) (e : Event) :
    (buildSegments week events).countP (fun s => s.event == e) =
      if overlapsWeek week e then events.count e else 0 := by
  induction events with
  | nil => simp [buildSegments]
  | cons a l ih =>
    unfold buildSegments at ih ⊢
    rw [List.filterMap_cons]
    rcases hma : mkSegment week a with _ | s
    · rw [List.count_cons]
      by_cases hae : a = e
      · subst hae
        have : ¬ overlapsWeek week a := by
          rw [← mkSegment_isSome week a, hma]
          simp
        simp [this] at ih ⊢
        exact ih
      · simp [hae, ih]
    · rw [List.countP_cons, ih, List.count_cons]
      have hev : s.event = a := mkSegment_event hma
      by_cases hae : a = e
      · subst hae
        have : overlapsWeek week a := by
          rw [← mkSegment_isSome week a, hma]
          simp
        simp [this, hev]
      · have : (s.event == e) = false := by simp [hev, hae]
        simp [this, hae]

/-- Claim C2: an event contributes a segment to a week row exactly when
the closed-interval overlap test holds, and each occurrence of an
overlapping event in the filtered list yields exactly one segment. -/
theorem segment_iff_overlap (week : List CalendarDay) (events : List Event) (e : Event) :
    ((mkSegment week e).isSome = true ↔
      (keyLe e.dateStart (dayKey (week.getD 6 default)) ∧
        keyLe (dayKey (week.getD 0 default)) e.dateEnd)) ∧
    (buildSegments week events).countP (fun s => s.event == e) =
      if overlapsWeek week e then events.count e else 0 :=
  ⟨mkSegment_isSome week e, buildSegments_count week events e⟩

theorem findIdx?_first {α : Type} (d : α) (p : α → Bool) :
    ∀ (l : List α) (i k : Nat), i < l.length → p (l.getD i d) = true →
      (∀ j, j < i → p (l.getD j d) = false) → l.findIdx? p k = some (k + i) := by
  intro l
  induction l with
  | nil => intro i k hi; simp at hi
  | cons a t ih =>
    intro i k hi hp hmin
    match i with
    | 0 =>
      rw [List.findIdx?_cons, if_pos (by simpa using hp)]
      simp
    | m + 1 =>
      rw [List.findIdx?_cons, if_neg (by simpa using hmin 0 (by omega))]
      have := ih m (k + 1) (by simpa using hi) (by simpa using hp)
        (fun j hj => by simpa using hmin (j + 1) (by omega))
      rw [this]
      congr 1
      omega

/-- Claim-facing description of the column mapping of `_buildWeekRow`:
continuation flags hold exactly when the event range exceeds the week on
that side; the start column is the 1-based index of the week day matching
`event.start` (or `1` when continuing from the prior week); the end column
is the matching index plus two, half-open (or `8` when continuing on). -/
def columnMappingSpec (week : List CalendarDay) (e : Event) (s : Segment) : Prop :=
  (s.contLeft = true ↔ keyLt e.dateStart (weekStartKey week)) ∧
  (s.contRight = true ↔ keyLt (weekEndKey week) e.dateEnd) ∧
  (keyLt e.dateStart (weekStartKey week) → s.startCol = 1) ∧
  (keyLt (weekEndKey week) e.dateEnd → s.endCol = 8) ∧
  (∀ i, i < 7 → i < week.length → ¬ keyLt e.dateStart (weekStartKey week) →
    dayKey (week.getD i default) = e.dateStart →
    (∀ j, j < i → dayKey (week.getD j default) ≠ e.dateStart) →
    s.startCol = i + 1) ∧
  (∀ i, i < 7 → i < week.length → ¬ keyLt (weekEndKey week) e.dateEnd →
    dayKey (week.getD i default) = e.dateEnd →
    (∀ j, j < i → dayKey (week.getD j default) ≠ e.dateEnd) →
    s.endCol = i + 2)

theorem getD_take_seven {week : List CalendarDay} {i : Nat} (h7 : i < 7) :
    (week.take 7).getD i default = week.getD i default := by
  rw [List.getD_eq_getElem?_getD, List.getD_eq_getElem?_getD, List.getElem?_take, if_pos h7]

/-- The second week of February 2026 (Sunday-start, 2026-02-08 through
2026-02-14), as produced by the month grid builder. -/
def sampleWeek : List CalendarDay :=
  [⟨2026, 1, 8, false⟩, ⟨2026, 1, 9, false⟩, ⟨2026, 1, 10, false⟩, ⟨2026, 1, 11, false⟩,
   ⟨2026, 1, 12, false⟩, ⟨2026, 1, 13, false⟩, ⟨2026, 1, 14, false⟩]

/-- A two-day event on 2026-02-09 .. 2026-02-10. -/
def sampleEvent : Event :=
  { id := "imd-14398", name := "South Series GS", dateStart := "2026-02-09",
    dateEnd := "2026-02-10", venue := "Snowbird", state := "UT", disciplines := ["GS"],
    circuit := some "IMD", ageGroups := ["U12"], status := "upcoming",
    pcssConfirmed := true, sourceUrl := "https://example.org" }

/-- Claim C3: the column mapping of every produced segment satisfies the
claim-facing `columnMappingSpec`, and the concrete scenario — event
2026-02-09..2026-02-10 inside the Sunday-start week 2026-02-08..2026-02-14 —
yields `startCol = 2`, `endCol = 4` and no continuation flags. -/
theorem column_mapping (week : List CalendarDay) (e : Event) (s : Segment)
    (hs : mkSegment week e = some s) :
    columnMappingSpec week e s ∧
      mkSegment sampleWeek sampleEvent =
        some { event := sampleEvent, startCol := 2, endCol := 4,
               contLeft := false, contRight := false } := by
  refine ⟨?_, by decide⟩
  unfold mkSegment at hs
  by_cases hc : (keyLtb (dayKey (week.getD 6 default)).data e.dateStart.data ||
      keyLtb e.dateEnd.data (dayKey (week.getD 0 default)).data) = true
  · rw [if_pos hc] at hs
    exact absurd hs (by simp)
  · rw [if_neg hc] at hs
    have h2 := Option.some_inj.mp hs
    subst h2
    refine ⟨by simp [keyLt, weekStartKey], by simp [keyLt, weekEndKey], ?_, ?_, ?_, ?_⟩
    · intro h
      have hb : keyLtb e.dateStart.data (dayKey (week.getD 0 default)).data = true := h
      show (if keyLtb e.dateStart.data (dayKey (week.getD 0 default)).data then _ else _) = 1
      rw [if_pos hb]
    · intro h
      have hb : keyLtb (dayKey (week.getD 6 default)).data e.dateEnd.data = true := h
      show (if keyLtb (dayKey (week.getD 6 default)).data e.dateEnd.data then _ else _) = 8
      rw [if_pos hb]
    · intro i h7 hlen hnl hkey hmin
      have hb : keyLtb e.dateStart.data (dayKey (week.getD 0 default)).data = false := by
        revert hnl
        unfold keyLt weekStartKey
        cases keyLtb e.dateStart.data (dayKey (week.getD 0 default)).data <;> simp
      have hfind : (week.take 7).findIdx? (fun c => dayKey c == e.dateStart) = some i := by
        have := findIdx?_first default (fun c => dayKey c == e.dateStart) (week.take 7) i 0
          (by simp [List.length_take]; omega)
          (by rw [getD_take_seven h7]; simp only [beq_iff_eq]; exact hkey)
          (fun j hj => by
            rw [getD_take_seven (by omega)]
            simp only [beq_eq_false_iff_ne]
            exact hmin j hj)
        simpa using this
      show (if keyLtb e.dateStart.data (dayKey (week.getD 0 default)).data then _ else _) = i + 1
      rw [if_neg (by rw [hb]; simp), hfind]
    · intro i h7 hlen hnr hkey hmin
      have hb : keyLtb (dayKey (week.getD 6 default)).data e.dateEnd.data = false := by
        revert hnr
        unfold keyLt weekEndKey
        cases keyLtb (dayKey (week.getD 6 default)).data e.dateEnd.data <;> simp
      have hfind : (week.take 7).findIdx? (fun c => dayKey c == e.dateEnd) = some i := by
        have := findIdx?_first default (fun c => dayKey c == e.dateEnd) (week.take 7) i 0
          (by simp [List.length_take]; omega)
          (by rw [getD_take_seven h7]; simp only [beq_iff_eq]; exact hkey)
          (fun j hj => by
            rw [getD_take_seven (by omega)]
            simp only [beq_eq_false_iff_ne]
            exact hmin j hj)
        simpa using this
      show (if keyLtb (dayKey (week.getD 6 default)).data e.dateEnd.data then _ else _) = i + 2
      rw [if_neg (by rw [hb]; simp), hfind]

/-- Witness for claim C3 at the concrete scenario of the spec. -/
theorem column_mapping_witness :
    mkSegment sampleWeek sampleEvent =
      some { event := sampleEvent, startCol := 2, endCol := 4,
             contLeft := false, contRight := false } ∧
    (columnMappingSpec sampleWeek sampleEvent
        { event := sampleEvent, startCol := 2, endCol := 4,
          contLeft := false, contRight := false } ∧
      mkSegment sampleWeek sampleEvent =
        some { event := sampleEvent, startCol := 2, endCol := 4,
               contLeft := false, contRight := false }) :=
  ⟨by decide,
    column_mapping sampleWeek sampleEvent
      { event := sampleEvent, startCol := 2, endCol := 4,
        contLeft := false, contRight := false } (by decide)⟩

/-- Column-range compatibility: the code's no-conflict test
`seg.endCol <= other.startCol || seg.startCol >= other.endCol`. -/
def segCompat (a b : Segment) : Prop := a.endCol ≤ b.startCol ∨ b.endCol ≤ a.startCol

theorem segCompat_symm {a b : Segment} (h : segCompat a b) : segCompat b a := h.symm

theorem laneConflict_eq_false {lane : List Segment} {s : Segment} :
    laneConflict lane s = false ↔ ∀ o ∈ lane, segCompat s o := by
  unfold laneConflict segCompat
  rw [List.any_eq_false]
  constructor
  · intro h o ho
    have := h o ho
    revert this
    rcases h1 : decide (s.endCol ≤ o.startCol) <;>
      rcases h2 : decide (s.startCol ≥ o.endCol) <;> simp at h1 h2 <;> simp [h1, h2] <;> omega
  · intro h o ho
    have := h o ho
    rcases h1 : decide (s.endCol ≤ o.startCol) <;>
      rcases h2 : decide (s.startCol ≥ o.endCol) <;> simp at h1 h2 <;> simp [h1, h2] <;> omega

theorem findLane_some {s : Segment} :
    ∀ {lanes : List (List Segment)} {i : Nat}, findLane lanes s = some i →
      i < lanes.length ∧ laneConflict (lanes.getD i []) s = false := by
  intro lanes
  induction lanes with
  | nil => intro i h; simp [findLane] at h
  | cons l rest ih =>
    intro i h
    unfold findLane at h
    by_cases hc : laneConflict l s = true
    · rw [if_pos hc] at h
      rcases Option.map_eq_some'.mp h with ⟨j, hj, hij⟩
      rcases ih hj with ⟨hlen, hconf⟩
      subst hij
      exact ⟨by simpa using hlen, by simpa using hconf⟩
    · rw [if_neg hc] at h
      have h0 := Option.some_inj.mp h
      subst h0
      exact ⟨by simp, by simpa using Bool.eq_false_iff.mpr hc⟩

/-- The invariant maintained by the greedy lane packing: every lane is
pairwise compatible, entries assigned the same lane index are compatible,
and every recorded assignment points into its lane. -/
def allocInv (st : List (List Segment) × List (Segment × Nat)) : Prop :=
  (∀ lane ∈ st.1, lane.Pairwise segCompat) ∧
  st.2.Pairwise (fun p q => p.2 = q.2 → segCompat p.1 q.1) ∧
  (∀ p ∈ st.2, p.2 < st.1.length ∧ p.1 ∈ st.1.getD p.2 [])

theorem allocStep_inv {st : List (List Segment) × List (Segment × Nat)} {s : Segment}
    (h : allocInv st) : allocInv (allocStep st s) := by
  obtain ⟨hlanes, hpair, hmem⟩ := h
  unfold allocStep
  rcases hf : findLane st.1 s with _ | i
  · refine ⟨?_, ?_, ?_⟩
    · intro lane hl
      rcases List.mem_append.mp hl with hl | hl
      · exact hlanes lane hl
      · rcases List.mem_singleton.mp hl with rfl
        simp
    · rw [List.pairwise_append]
      refine ⟨hpair, by simp, ?_⟩
      intro p hp q hq
      rcases List.mem_singleton.mp hq with rfl
      intro hpq
      exact absurd ((hmem p hp).1) (by simp [hpq])
    · intro p hp
      rcases List.mem_append.mp hp with hp | hp
      · rcases hmem p hp with ⟨hplen, hpmem⟩
        refine ⟨by simp; omega, ?_⟩
        rw [List.getD_eq_getElem?_getD, List.getElem?_append_left hplen,
          ← List.getD_eq_getElem?_getD]
        exact hpmem
      · rcases List.mem_singleton.mp hp with rfl
        refine ⟨by simp, ?_⟩
        rw [List.getD_eq_getElem?_getD, List.getElem?_concat_length]
        simp
  · rcases findLane_some hf with ⟨hilen, hconf⟩
    have hcompat : ∀ o ∈ st.1.getD i [], segCompat s o := laneConflict_eq_false.mp hconf
    refine ⟨?_, ?_, ?_⟩
    · intro lane hl
      rcases List.mem_or_eq_of_mem_set hl with hl | rfl
      · exact hlanes lane hl
      · rw [List.pairwise_append]
        have hmemlane : st.1.getD i [] ∈ st.1 := by
          rw [List.getD_eq_getElem?_getD, List.getElem?_eq_getElem hilen]
          exact List.getElem_mem hilen
        refine ⟨hlanes _ hmemlane, by simp, ?_⟩
        intro a ha b hb
        rcases List.mem_singleton.mp hb with rfl
        exact segCompat_symm (hcompat a ha)
    · rw [List.pairwise_append]
      refine ⟨hpair, by simp, ?_⟩
      intro p hp q hq
      rcases List.mem_singleton.mp hq with rfl
      intro hpq
      have hpmem := (hmem p hp).2
      rw [hpq] at hpmem
      exact segCompat_symm (hcompat p.1 hpmem)
    · intro p hp
      rcases List.mem_append.mp hp with hp | hp
      · rcases hmem p hp with ⟨hplen, hpmem⟩
        refine ⟨by simpa using hplen, ?_⟩
        by_cases hpi : p.2 = i
        · rw [hpi]
          rw [List.getD_eq_getElem?_getD, List.getElem?_set_self hilen]
          rw [hpi] at hpmem
          simp only [Option.getD_some, List.mem_append]
          exact Or.inl hpmem
        · rw [List.getD_eq_getElem?_getD, List.getElem?_set_ne (fun hh => hpi hh.symm),
            ← List.getD_eq_getElem?_getD]
          exact hpmem
      · rcases List.mem_singleton.mp hp with rfl
        refine ⟨by simpa using hilen, ?_⟩
        rw [List.getD_eq_getElem?_getD, List.getElem?_set_self hilen]
        simp

theorem foldl_allocStep_inv (segs : List Segment) :
    ∀ st, allocInv st → allocInv (segs.foldl allocStep st) := by
  induction segs with
  | nil => intro st h; exact h
  | cons s rest ih => intro st h; exact ih _ (allocStep_inv h)

theorem allocLanes_inv (segs : List Segment) : allocInv (allocLanes segs) := by
  apply foldl_allocStep_inv
  refine ⟨by simp, by simp, by simp⟩

/-- Claim C1: within any week row, any two segments that the lane
allocation assigns the same lane index have non-intersecting half-open
`[startCol, endCol)` column ranges. -/
theorem lanes_disjoint (week : List CalendarDay) (events : List Event) :
    (weekSegments week events).Pairwise
      (fun p q => p.2 = q.2 → ¬ colRangesIntersect p.1 q.1) := by
  have h := (allocLanes_inv (sortSegments (buildSegments week events))).2.1
  refine h.imp ?_
  intro p q hpq heq
  rcases hpq heq with hco | hco <;>
    · rintro ⟨c, ⟨⟨h1, h2⟩, h3, h4⟩⟩
      omega

/-- Lane index assigned to the first segment carrying event `e`. -/
def laneOf (e : Event) (assigned : List (Segment × Nat)) : Option Nat :=
  (assigned.find? (fun p => p.1.event == e)).map (fun p => p.2)

/-- A full-week event (2026-02-08 .. 2026-02-14). -/
def fullWeekA : Event :=
  { sampleEvent with
    id := "full-a", name := "Camp A",
    dateStart := "2026-02-08", dateEnd := "2026-02-14" }

/-- A second, distinct full-week event over the same dates. -/
def fullWeekB : Event :=
  { sampleEvent with
    id := "full-b", name := "Camp B",
    dateStart := "2026-02-08", dateEnd := "2026-02-14" }

/-- Counterexample to claim C4: two distinct events spanning the same full
week produce segments with identical sort keys, so the stable sort keeps
them in input order and the two orders of the same event list assign event
`fullWeekA` lane 0 in one order and lane 1 in the other. -/
theorem lane_permutation_counterexample :
    [fullWeekA, fullWeekB].Perm [fullWeekB, fullWeekA] ∧
    laneOf fullWeekA (weekSegments sampleWeek [fullWeekA, fullWeekB]) = some 0 ∧
    laneOf fullWeekA (weekSegments sampleWeek [fullWeekB, fullWeekA]) = some 1 :=
  ⟨List.Perm.swap fullWeekB fullWeekA [], by decide, by decide⟩

/-- Two segments with distinct `(startCol, endCol)` column pairs. -/
def segColsNe (a b : Segment) : Prop :=
  a.startCol ≠ b.startCol ∨ a.endCol ≠ b.endCol

instance : DecidableRel segColsNe := fun a b =>
  inferInstanceAs (Decidable (_ ∨ _))

theorem segColsNe_symm {a b : Segment} (h : segColsNe a b) : segColsNe b a := by
  unfold segColsNe at *
  omega

/-- Two sorted lists that are permutations of each other and whose
elements have pairwise distinct sort keys are equal. -/
theorem sorted_perm_eq_of_colsNe :
    ∀ {l₁ l₂ : List Segment}, l₁.Perm l₂ → l₁.Sorted segBefore → l₂.Sorted segBefore →
      l₁.Pairwise segColsNe → l₁ = l₂ := by
  intro l₁
  induction l₁ with
  | nil => intro l₂ hp _ _ _; exact (hp.symm.eq_nil).symm
  | cons a t₁ ih =>
    intro l₂ hp hs₁ hs₂ hne
    match l₂ with
    | [] => exact absurd hp.eq_nil (by simp)
    | b :: t₂ =>
      have hab : a = b := by
        by_contra hneq
        have hbmem : b ∈ a :: t₁ := hp.mem_iff.mpr (List.mem_cons_self b t₂)
        have hamem : a ∈ b :: t₂ := hp.mem_iff.mp (List.mem_cons_self a t₁)
        have hb₁ : b ∈ t₁ := by
          rcases List.mem_cons.mp hbmem with h | h
          · exact absurd h.symm hneq
          · exact h
        have hba : segBefore b a := by
          rcases List.mem_cons.mp hamem with h | h
          · exact absurd h hneq
          · exact List.rel_of_sorted_cons hs₂ a h
        have hab2 : segBefore a b := List.rel_of_sorted_cons hs₁ b hb₁
        have hcne : segColsNe a b := (List.pairwise_cons.mp hne).1 b hb₁
        unfold segBefore at hab2 hba
        unfold segColsNe at hcne
        omega
      subst hab
      have := ih hp.cons_inv hs₁.of_cons hs₂.of_cons (List.pairwise_cons.mp hne).2
      rw [this]

/-- Claim C4 (amended): the per-week candidates are sorted by the
comparator (ascending start column, ties by descending span), and —
provided the candidate segments carry pairwise distinct
`(startCol, endCol)` column pairs — the lane allocation is independent of
the order of the filtered event list. -/
theorem lane_allocation_deterministic (week : List CalendarDay)
    (events₁ events₂ : List Event) (hperm : events₁.Perm events₂)
    (hkeys : (buildSegments week events₁).Pairwise segColsNe) :
    List.Sorted segBefore (sortSegments (buildSegments week events₁)) ∧
    weekSegments week events₁ = weekSegments week events₂ := by
  refine ⟨List.sorted_insertionSort segBefore _, ?_⟩
  have heq : sortSegments (buildSegments week events₁) = sortSegments (buildSegments week events₂) := by
    apply sorted_perm_eq_of_colsNe
    · exact (List.perm_insertionSort segBefore _).trans
        ((hperm.filterMap (mkSegment week)).trans
          (List.perm_insertionSort segBefore _).symm)
    · exact List.sorted_insertionSort segBefore _
    · exact List.sorted_insertionSort segBefore _
    · exact ((List.perm_insertionSort segBefore _).pairwise_iff
        (fun h => segColsNe_symm h)).mpr hkeys
  unfold weekSegments
  rw [heq]

/-- A second sample event on 2026-02-11 .. 2026-02-12, with columns
disjoint from `sampleEvent`. -/
def sampleEvent2 : Event :=
  { sampleEvent with
    id := "imd-2", name := "North Series SL",
    dateStart := "2026-02-11", dateEnd := "2026-02-12", disciplines := ["SL"] }

/-- Witness for the amended claim C4 at a concrete permutation pair. -/
theorem lane_allocation_deterministic_witness :
    ([sampleEvent, sampleEvent2].Perm [sampleEvent2, sampleEvent] ∧
      (buildSegments sampleWeek [sampleEvent, sampleEvent2]).Pairwise segColsNe) ∧
    (List.Sorted segBefore (sortSegments (buildSegments sampleWeek [sampleEvent, sampleEvent2])) ∧
      weekSegments sampleWeek [sampleEvent, sampleEvent2] =
        weekSegments sampleWeek [sampleEvent2, sampleEvent]) :=
  ⟨⟨List.Perm.swap sampleEvent2 sampleEvent [], by decide⟩,
    lane_allocation_deterministic sampleWeek [sampleEvent, sampleEvent2]
      [sampleEvent2, sampleEvent] (List.Perm.swap sampleEvent2 sampleEvent []) (by decide)⟩

/-- The `Filters._state` record: the three chip sets plus the two
boolean toggles (sets as duplicate-free lists in insertion order). -/
structure FilterState where
  disciplines : List String
  circuits : List String
  ageGroups : List String
  pcssOnly : Bool
  hidePast : Bool
deriving DecidableEq, Repr

/-- The literal initial `_state` of the `Filters` object. -/
def initialFilterState : FilterState := ⟨[], [], [], false, false⟩

/-- The predicate body of `Filters.filter`: the early-return chain over
hide-past, PCSS-only, discipline, circuit and age-group conditions. -/
def eventPasses (st : FilterState) (e : Event) : Bool :=
  if st.hidePast && (e.status == "completed") then false
  else if st.pcssOnly && !e.pcssConfirmed then false
  else if !st.disciplines.isEmpty && !(st.disciplines.any (fun d => e.disciplines.contains d)) then
    false
  else if !st.circuits.isEmpty &&
      !(match e.circuit with | some c => st.circuits.contains c | none => false) then
    false
  else if !st.ageGroups.isEmpty && !(st.ageGroups.any (fun a => e.ageGroups.contains a)) then
    false
  else true

/-- `Filters.filter(events)`: `events.filter(e => ...)`. -/
def Filters.filter (st : FilterState) (events : List Event) : List Event :=
  events.filter (eventPasses st)

/-- `Filters.clearAll()`: every predicate reset to the empty or false
state (the UI-sync and re-render callback have no effect on the state). -/
def Filters.clearAll (_st : FilterState) : FilterState := ⟨[], [], [], false, false⟩

/-- JavaScript `Set` toggle used by `_toggleChip`: delete the value when
present, add it otherwise. -/
def toggleValue (l : List String) (v : String) : List String :=
  if l.contains v then l.filter (fun x => x != v) else l ++ [v]

/-- `Filters._toggleChip` on a chip carrying filter kind `f` and value
`v`: flip the matching boolean, or toggle the value in the matching set;
unknown kinds fall through every branch. -/
def Filters.toggleChip (st : FilterState) (f v : String) : FilterState :=
  if f == "past" then { st with hidePast := !st.hidePast }
  else if f == "pcss" then { st with pcssOnly := !st.pcssOnly }
  else if f == "discipline" then { st with disciplines := toggleValue st.disciplines v }
  else if f == "circuit" then { st with circuits := toggleValue st.circuits v }
  else if f == "age" then { st with ageGroups := toggleValue st.ageGroups v }
  else st

/-- The record returned by `URLParams.parse` (absent parameters already
defaulted: booleans false, lists empty, `view` defaulted to "month"). -/
structure ParsedParams where
  embed : Bool
  view : String
  discipline : List String
  circuit : List String
  age : List String
  pcss : Bool
  past : Bool
  racer : String
deriving DecidableEq, Repr

/-- JavaScript `Set.add`: append when absent. -/
def addSet (l : List String) (v : String) : List String :=
  if l.contains v then l else l ++ [v]

/-- ASCII upper-casing, the model of `String.prototype.toUpperCase` on
the chip vocabulary. -/
def upperKey (s : String) : String := String.mk (s.data.map Char.toUpper)

/-- The state produced by `Filters.init`: URL presets applied to the
literal initial `_state` (chip building and UI sync do not touch the
predicate state). -/
def Filters.init (p : ParsedParams) : FilterState :=
  let st1 := { initialFilterState with
    disciplines :=
      p.discipline.foldl (fun l d => addSet l (upperKey d)) initialFilterState.disciplines }
  let st2 := { st1 with circuits := p.circuit.foldl addSet st1.circuits }
  let st3 := { st2 with ageGroups := p.age.foldl (fun l a => addSet l (upperKey a)) st2.ageGroups }
  let st4 := if p.pcss then { st3 with pcssOnly := true } else st3
  if p.past then { st4 with hidePast := false } else st4

/-- The claim-facing filtering predicate of C6: a conjunction of the five
independent conditions. -/
def claimPasses (st : FilterState) (e : Event) : Prop :=
  (st.hidePast = true → e.status ≠ "completed") ∧
  (st.pcssOnly = true → e.pcssConfirmed = true) ∧
  (st.disciplines = [] ∨ ∃ d ∈ st.disciplines, d ∈ e.disciplines) ∧
  (st.circuits = [] ∨ ∃ c ∈ st.circuits, e.circuit = some c) ∧
  (st.ageGroups = [] ∨ ∃ a ∈ st.ageGroups, a ∈ e.ageGroups)

instance (st : FilterState) (e : Event) : Decidable (claimPasses st e) :=
  inferInstanceAs (Decidable (_ ∧ _ ∧ _ ∧ _ ∧ _))

theorem eventPasses_eq_and (st : FilterState) (e : Event) :
    eventPasses st e =
      (!(st.hidePast && (e.status == "completed")) &&
       (!(st.pcssOnly && !e.pcssConfirmed) &&
        (!(!st.disciplines.isEmpty &&
            !(st.disciplines.any (fun d => e.disciplines.contains d))) &&
         (!(!st.circuits.isEmpty &&
             !(match e.circuit with | some c => st.circuits.contains c | none => false)) &&
          !(!st.ageGroups.isEmpty &&
             !(st.ageGroups.any (fun a => e.ageGroups.contains a))))))) := by
  unfold eventPasses
  rcases h1 : st.hidePast && (e.status == "completed") <;>
    rcases h2 : st.pcssOnly && !e.pcssConfirmed <;>
      rcases h3 : !st.disciplines.isEmpty &&
          !(st.disciplines.any (fun d => e.disciplines.contains d)) <;>
        rcases h4 : !st.circuits.isEmpty &&
            !(match e.circuit with | some c => st.circuits.contains c | none => false) <;>
          rcases h5 : !st.ageGroups.isEmpty &&
              !(st.ageGroups.any (fun a => e.ageGroups.contains a)) <;>
            rfl

theorem hidePast_comp (st : FilterState) (e : Event) :
    (!(st.hidePast && (e.status == "completed"))) = true ↔
      (st.hidePast = true → e.status ≠ "completed") := by
  rcases h : st.hidePast <;> simp [h]

theorem pcss_comp (st : FilterState) (e : Event) :
    (!(st.pcssOnly && !e.pcssConfirmed)) = true ↔
      (st.pcssOnly = true → e.pcssConfirmed = true) := by
  rcases h : st.pcssOnly <;> rcases h2 : e.pcssConfirmed <;> simp [h, h2]

theorem chipSet_comp (l : List String) (target : List String) :
    (!(!l.isEmpty && !(l.any (fun d => target.contains d)))) = true ↔
      (l = [] ∨ ∃ d ∈ l, d ∈ target) := by
  rcases he : l.isEmpty <;> rcases ha : l.any (fun d => target.contains d) <;>
    simp_all [List.isEmpty_iff, List.any_eq_true, List.contains, List.elem_iff]

theorem circuit_comp (st : FilterState) (e : Event) :
    (!(!st.circuits.isEmpty &&
        !(match e.circuit with | some c => st.circuits.contains c | none => false))) = true ↔
      (st.circuits = [] ∨ ∃ c ∈ st.circuits, e.circuit = some c) := by
  rcases hc : e.circuit with _ | cv
  · by_cases he : st.circuits = []
    · simp [he]
    · have h1 : st.circuits.isEmpty = false := by simp [List.isEmpty_iff, he]
      simp [h1, he]
  · by_cases he : st.circuits = []
    · simp [he]
    · have h1 : st.circuits.isEmpty = false := by simp [List.isEmpty_iff, he]
      rcases hm : st.circuits.contains cv
      · have hmem : cv ∉ st.circuits := by
          intro hcv
          simp [List.contains, List.elem_iff, hcv] at hm
        simp [h1, he, hmem]
      · have hmem : cv ∈ st.circuits := by
          have : st.circuits.elem cv = true := hm
          exact List.elem_iff.mp this
        simp [h1, he, hmem]

theorem eventPasses_iff (st : FilterState) (e : Event) :
    eventPasses st e = true ↔ claimPasses st e := by
  rw [eventPasses_eq_and]
  unfold claimPasses
  simp only [Bool.and_eq_true]
  rw [hidePast_comp, pcss_comp, chipSet_comp, circuit_comp, chipSet_comp]

/-- A filter state with only the GS discipline chip active. -/
def gsOnlyState : FilterState := ⟨["GS"], [], [], false, false⟩

/-- An event carrying disciplines `[SL, GS]`. -/
def slgsEvent : Event :=
  { sampleEvent with
    id := "imd-3", name := "Combined SL GS", disciplines := ["SL", "GS"] }

/-- An event carrying disciplines `[SL]` only. -/
def slEvent : Event :=
  { sampleEvent with
    id := "imd-4", name := "Slalom Day", disciplines := ["SL"] }

/-- Claim C6: `Filters.filter` is pure, returns the subsequence of input
events satisfying the AND-of-ORs predicate of the claim, and on the
concrete scenario the GS-only discipline filter keeps the
`[SL, GS]` event and drops the `[SL]` event. -/
theorem filter_functional (st : FilterState) (events : List Event) :
    Filters.filter st events = events.filter (fun e => decide (claimPasses st e)) ∧
    (Filters.filter st events).Sublist events ∧
    Filters.filter gsOnlyState [slgsEvent, slEvent] = [slgsEvent] := by
  refine ⟨?_, List.filter_sublist events, by decide⟩
  unfold Filters.filter
  refine List.filter_congr (fun e he => ?_)
  have h1 := eventPasses_iff st e
  by_cases hcp : claimPasses st e
  · simp [hcp] at h1 ⊢
    exact h1
  · simp [hcp] at h1 ⊢
    exact h1

/-- Claim C7: filtering is idempotent, and filtering with the state
produced by `clearAll` returns the input list unchanged. -/
theorem filter_idempotent_clear (st : FilterState) (events : List Event) :
    Filters.filter st (Filters.filter st events) = Filters.filter st events ∧
    Filters.filter (Filters.clearAll st) events = events := by
  constructor
  · unfold Filters.filter
    rw [List.filter_filter]
    refine List.filter_congr (fun x hx => ?_)
    rcases h : eventPasses st x <;> simp [h]
  · unfold Filters.filter Filters.clearAll
    exact List.filter_eq_self.mpr (fun a _ => rfl)

/-- Counterexample to claim C9: with an empty discipline set, toggling the
unrecognized discipline value "ZZ" turns the discipline clause on and
empties the result set, so the toggle is not a no-op on the result. -/
theorem toggle_unknown_counterexample :
    ("ZZ" ∉ sampleEvent.disciplines) ∧
    Filters.filter initialFilterState [sampleEvent] = [sampleEvent] ∧
    Filters.filter (Filters.toggleChip initialFilterState "discipline" "ZZ") [sampleEvent] = [] :=
  ⟨by decide, by decide, by decide⟩

theorem mem_toggleValue (l : List String) (v x : String) :
    x ∈ toggleValue l v ↔ ((x ∈ l ∧ x ≠ v) ∨ (x = v ∧ v ∉ l)) := by
  unfold toggleValue
  rcases hv : l.contains v
  · have hvm : v ∉ l := by
      intro hcv
      simp [List.contains, List.elem_iff, hcv] at hv
    rw [if_neg (by simp [hv])]
    simp [List.mem_append]
    constructor
    · rintro (h | rfl)
      · exact Or.inl ⟨h, fun hxv => hvm (hxv ▸ h)⟩
      · exact Or.inr ⟨rfl, hvm⟩
    · rintro (⟨h, _⟩ | ⟨rfl, _⟩)
      · exact Or.inl h
      · exact Or.inr rfl
  · have hvm : v ∈ l := List.elem_iff.mp hv
    rw [if_pos (by simp [hv])]
    simp only [List.mem_filter, bne_iff_ne]
    constructor
    · rintro ⟨h, hne⟩
      exact Or.inl ⟨h, hne⟩
    · rintro (⟨h, hne⟩ | ⟨rfl, h⟩)
      · exact ⟨h, hne⟩
      · exact absurd hvm h

theorem chipClause_toggle (L : List String) (v : String) (p : String → Prop)
    (hv : ¬ p v) (hpre : L ≠ []) (hpost : toggleValue L v ≠ []) :
    ((toggleValue L v = [] ∨ ∃ d ∈ toggleValue L v, p d) ↔ (L = [] ∨ ∃ d ∈ L, p d)) := by
  simp only [hpre, hpost, false_or]
  constructor
  · rintro ⟨d, hd, hdp⟩
    rcases (mem_toggleValue L v d).mp hd with ⟨hdl, _⟩ | ⟨rfl, _⟩
    · exact ⟨d, hdl, hdp⟩
    · exact absurd hdp hv
  · rintro ⟨d, hd, hdp⟩
    refine ⟨d, (mem_toggleValue L v d).mpr ?_, hdp⟩
    by_cases hdv : d = v
    · subst hdv
      exact absurd hdp hv
    · exact Or.inl ⟨hd, hdv⟩

theorem eventPasses_congr {st₁ st₂ : FilterState} (e : Event)
    (h : claimPasses st₁ e ↔ claimPasses st₂ e) :
    eventPasses st₁ e = eventPasses st₂ e := by
  have h1 := eventPasses_iff st₁ e
  have h2 := eventPasses_iff st₂ e
  rcases hb1 : eventPasses st₁ e <;> rcases hb2 : eventPasses st₂ e <;>
    rw [hb1] at h1 <;> rw [hb2] at h2 <;> simp at h1 h2 <;> tauto

theorem filter_disciplines_congr (st : FilterState) (L : List String) (events : List Event)
    (h : ∀ e ∈ events,
      ((L = [] ∨ ∃ d ∈ L, d ∈ e.disciplines) ↔
        (st.disciplines = [] ∨ ∃ d ∈ st.disciplines, d ∈ e.disciplines))) :
    Filters.filter { st with disciplines := L } events = Filters.filter st events := by
  unfold Filters.filter
  refine List.filter_congr (fun e he => ?_)
  refine eventPasses_congr e ?_
  unfold claimPasses
  rw [show ({ st with disciplines := L } : FilterState).disciplines = L from rfl,
    show ({ st with disciplines := L } : FilterState).hidePast = st.hidePast from rfl,
    show ({ st with disciplines := L } : FilterState).pcssOnly = st.pcssOnly from rfl,
    show ({ st with disciplines := L } : FilterState).circuits = st.circuits from rfl,
    show ({ st with disciplines := L } : FilterState).ageGroups = st.ageGroups from rfl,
    h e he]

theorem filter_circuits_congr (st : FilterState) (L : List String) (events : List Event)
    (h : ∀ e ∈ events,
      ((L = [] ∨ ∃ c ∈ L, e.circuit = some c) ↔
        (st.circuits = [] ∨ ∃ c ∈ st.circuits, e.circuit = some c))) :
    Filters.filter { st with circuits := L } events = Filters.filter st events := by
  unfold Filters.filter
  refine List.filter_congr (fun e he => ?_)
  refine eventPasses_congr e ?_
  unfold claimPasses
  rw [show ({ st with circuits := L } : FilterState).circuits = L from rfl,
    show ({ st with circuits := L } : FilterState).hidePast = st.hidePast from rfl,
    show ({ st with circuits := L } : FilterState).pcssOnly = st.pcssOnly from rfl,
    show ({ st with circuits := L } : FilterState).disciplines = st.disciplines from rfl,
    show ({ st with circuits := L } : FilterState).ageGroups = st.ageGroups from rfl,
    h e he]

theorem filter_ageGroups_congr (st : FilterState) (L : List String) (events : List Event)
    (h : ∀ e ∈ events,
      ((L = [] ∨ ∃ a ∈ L, a ∈ e.ageGroups) ↔
        (st.ageGroups = [] ∨ ∃ a ∈ st.ageGroups, a ∈ e.ageGroups))) :
    Filters.filter { st with ageGroups := L } events = Filters.filter st events := by
  unfold Filters.filter
  refine List.filter_congr (fun e he => ?_)
  refine eventPasses_congr e ?_
  unfold claimPasses
  rw [show ({ st with ageGroups := L } : FilterState).ageGroups = L from rfl,
    show ({ st with ageGroups := L } : FilterState).hidePast = st.hidePast from rfl,
    show ({ st with ageGroups := L } : FilterState).pcssOnly = st.pcssOnly from rfl,
    show ({ st with ageGroups := L } : FilterState).disciplines = st.disciplines from rfl,
    show ({ st with ageGroups := L } : FilterState).circuits = st.circuits from rfl,
    h e he]

/-- The chip set of `st` addressed by a filter kind string. -/
def chipSet (st : FilterState) (kind : String) : List String :=
  if kind == "discipline" then st.disciplines
  else if kind == "circuit" then st.circuits
  else if kind == "age" then st.ageGroups
  else []

/-- Whether event `e` carries value `v` in the vocabulary addressed by
`kind`; the claim's notion of a recognized chip value. -/
def eventHasValue (e : Event) (kind v : String) : Bool :=
  if kind == "discipline" then e.disciplines.contains v
  else if kind == "circuit" then e.circuit == some v
  else if kind == "age" then e.ageGroups.contains v
  else false

/-- Claim C9 (amended): toggling a chip value is the symmetric-difference
operation on the addressed set and never fails; when the value is
unrecognized (carried by no event in the list), the filter's result set is
unchanged provided the addressed chip set is nonempty both before and
after the toggle.  (When the toggle crosses the empty/nonempty boundary
the result set does change, see the counterexample.) -/
theorem toggle_unknown_amended (st : FilterState) (events : List Event) (kind v : String)
    (hkind : kind = "discipline" ∨ kind = "circuit" ∨ kind = "age")
    (hunrec : ∀ e ∈ events, eventHasValue e kind v = false)
    (hpre : chipSet st kind ≠ [])
    (hpost : chipSet (Filters.toggleChip st kind v) kind ≠ []) :
    (∀ x, x ∈ chipSet (Filters.toggleChip st kind v) kind ↔
        ((x ∈ chipSet st kind ∧ x ≠ v) ∨ (x = v ∧ v ∉ chipSet st kind))) ∧
    Filters.filter (Filters.toggleChip st kind v) events = Filters.filter st events := by
  rcases hkind with rfl | rfl | rfl
  · have ht : Filters.toggleChip st "discipline" v =
        { st with disciplines := toggleValue st.disciplines v } := rfl
    rw [ht]
    have hcs : chipSet { st with disciplines := toggleValue st.disciplines v } "discipline" =
        toggleValue st.disciplines v := rfl
    have hcs2 : chipSet st "discipline" = st.disciplines := rfl
    rw [hcs, hcs2]
    rw [hcs2] at hpre
    rw [ht, hcs] at hpost
    refine ⟨fun x => mem_toggleValue st.disciplines v x, ?_⟩
    refine filter_disciplines_congr st (toggleValue st.disciplines v) events (fun e he => ?_)
    refine chipClause_toggle st.disciplines v (fun d => d ∈ e.disciplines) ?_ hpre hpost
    intro hvmem
    have := hunrec e he
    rw [show eventHasValue e "discipline" v = e.disciplines.contains v from rfl] at this
    simp [List.contains, List.elem_iff, hvmem] at this
  · have ht : Filters.toggleChip st "circuit" v =
        { st with circuits := toggleValue st.circuits v } := rfl
    rw [ht]
    have hcs : chipSet { st with circuits := toggleValue st.circuits v } "circuit" =
        toggleValue st.circuits v := rfl
    have hcs2 : chipSet st "circuit" = st.circuits := rfl
    rw [hcs, hcs2]
    rw [hcs2] at hpre
    rw [ht, hcs] at hpost
    refine ⟨fun x => mem_toggleValue st.circuits v x, ?_⟩
    refine filter_circuits_congr st (toggleValue st.circuits v) events (fun e he => ?_)
    refine chipClause_toggle st.circuits v (fun c => e.circuit = some c) ?_ hpre hpost
    intro hvmem
    have := hunrec e he
    rw [show eventHasValue e "circuit" v = (e.circuit == some v) from rfl] at this
    simp [hvmem] at this
  · have ht : Filters.toggleChip st "age" v =
        { st with ageGroups := toggleValue st.ageGroups v } := rfl
    rw [ht]
    have hcs : chipSet { st with ageGroups := toggleValue st.ageGroups v } "age" =
        toggleValue st.ageGroups v := rfl
    have hcs2 : chipSet st "age" = st.ageGroups := rfl
    rw [hcs, hcs2]
    rw [hcs2] at hpre
    rw [ht, hcs] at hpost
    refine ⟨fun x => mem_toggleValue st.ageGroups v x, ?_⟩
    refine filter_ageGroups_congr st (toggleValue st.ageGroups v) events (fun e he => ?_)
    refine chipClause_toggle st.ageGroups v (fun a => a ∈ e.ageGroups) ?_ hpre hpost
    intro hvmem
    have := hunrec e he
    rw [show eventHasValue e "age" v = e.ageGroups.contains v from rfl] at this
    simp [List.contains, List.elem_iff, hvmem] at this

/-- Witness for the amended claim C9: toggling the unknown value "ZZ" on
the nonempty GS discipline set leaves the result over `[sampleEvent]`
unchanged. -/
theorem toggle_unknown_amended_witness :
    ((∀ e ∈ [sampleEvent], eventHasValue e "discipline" "ZZ" = false) ∧
      chipSet gsOnlyState "discipline" ≠ [] ∧
      chipSet (Filters.toggleChip gsOnlyState "discipline" "ZZ") "discipline" ≠ []) ∧
    ((∀ x, x ∈ chipSet (Filters.toggleChip gsOnlyState "discipline" "ZZ") "discipline" ↔
        ((x ∈ chipSet gsOnlyState "discipline" ∧ x ≠ "ZZ") ∨
          (x = "ZZ" ∧ "ZZ" ∉ chipSet gsOnlyState "discipline"))) ∧
      Filters.filter (Filters.toggleChip gsOnlyState "discipline" "ZZ") [sampleEvent] =
        Filters.filter gsOnlyState [sampleEvent]) :=
  ⟨⟨by decide, by decide, by decide⟩,
    toggle_unknown_amended gsOnlyState [sampleEvent] "discipline" "ZZ" (Or.inl rfl)
      (by decide) (by decide) (by decide)⟩

/-- Parsed URL parameters with `embed=true` and no explicit `past`
parameter (so `past = false` after parsing), plus chip presets. -/
def embedParams : ParsedParams :=
  { embed := true, view := "month", discipline := ["gs"], circuit := ["IMD"],
    age := ["u14"], pcss := true, past := false, racer := "" }

/-- Claim C10, evaluated against the code: `Filters.init` never produces
`hidePast = true` — for every parsed parameter record the resulting state
has `hidePast = false` (the `embed` flag is ignored by the filter seeding
and the `past` handler only ever re-assigns `false`) — while the
discipline, circuit, age and pcss parameters do seed their predicates.
The repository documentation and the spec both state that embed mode
defaults to hiding past events, so the missing `hidePast = true` default
is a code bug. -/
theorem init_embed_hidePast (p : ParsedParams) :
    (Filters.init p).hidePast = false ∧
    Filters.init embedParams =
      { disciplines := ["GS"], circuits := ["IMD"], ageGroups := ["U14"],
        pcssOnly := true, hidePast := false } := by
  refine ⟨?_, by decide⟩
  unfold Filters.init
  rcases h1 : p.pcss <;> rcases h2 : p.past <;> rfl

/-- Proleptic-Gregorian leap year test (the rule implemented by the
JavaScript `Date` builtin). -/
def isLeap (y : Nat) : Bool := decide ((y % 4 = 0 ∧ y % 100 ≠ 0) ∨ y % 400 = 0)

/-- `DateUtils.daysInMonth(year, month)` (`new Date(y, m+1, 0).getDate()`)
for 0-based months. -/
def monthLength (y m : Nat) : Nat :=
  if m = 1 then (if isLeap y then 29 else 28)
  else if m = 3 ∨ m = 5 ∨ m = 8 ∨ m = 10 then 30
  else 31

/-- Number of leap years in `1 .. y-1`. -/
def leapsBefore (y : Nat) : Nat := (y - 1) / 4 + (y - 1) / 400 - (y - 1) / 100

/-- Days from 0001-01-01 to the start of year `y` (proleptic Gregorian). -/
def daysBeforeYear (y : Nat) : Nat := 365 * (y - 1) + leapsBefore y

/-- Days of year `y` before the start of 0-based month `m`. -/
def monthOffset (y m : Nat) : Nat := ((List.range m).map (monthLength y)).sum

/-- Zero-based ordinal of a calendar day (0001-01-01 is day 0). -/
def dayNumber (y m d : Nat) : Nat := daysBeforeYear y + monthOffset y m + (d - 1)

/-- `Date.prototype.getDay`: 0 = Sunday.  0001-01-01 (day number 0) was a
Monday, hence the `+ 1`. -/
def dayOfWeek (y m d : Nat) : Nat := (dayNumber y m d + 1) % 7

/-- `DateUtils.firstDayOfWeek(year, month)`: weekday of the 1st. -/
def firstDayOfWeek (y m : Nat) : Nat := dayOfWeek y m 1

/-- Calendar successor of a valid date (the JavaScript
`d.setDate(d.getDate() + 1)` normalization). -/
def succDate (y m d : Nat) : Nat × Nat × Nat :=
  if d < monthLength y m then (y, m, d + 1)
  else if m < 11 then (y, m + 1, 1)
  else (y + 1, 0, 1)

/-- `prevMonth` in `_buildDayGrid`. -/
def gridPrevMonth (m : Nat) : Nat := if m = 0 then 11 else m - 1

/-- `prevYear` in `_buildDayGrid`. -/
def gridPrevYear (y m : Nat) : Nat := if m = 0 then y - 1 else y

/-- `nextMonth` in `_buildDayGrid`. -/
def gridNextMonth (m : Nat) : Nat := if m = 11 then 0 else m + 1

/-- `nextYear` in `_buildDayGrid`. -/
def gridNextYear (y m : Nat) : Nat := if m = 11 then y + 1 else y

/-- `rows = Math.ceil(totalCells / 7)` in `_buildDayGrid`. -/
def gridRows (y m : Nat) : Nat := (firstDayOfWeek y m + monthLength y m + 6) / 7

/-- The previous-month trailing days pushed by the first loop of
`_buildDayGrid` (`for (let i = firstDay - 1; i >= 0; i--)` pushing
`prevDays - i`): the `j`-th pushed day is `prevDays - (firstDay-1-j)`. -/
def leadingDays (y m : Nat) : List CalendarDay :=
  (List.range (firstDayOfWeek y m)).map
    (fun j => ⟨gridPrevYear y m, gridPrevMonth m,
      monthLength (gridPrevYear y m) (gridPrevMonth m) - (firstDayOfWeek y m - 1 - j), true⟩)

/-- The current-month days of `_buildDayGrid`. -/
def currentDays (y m : Nat) : List CalendarDay :=
  (List.range (monthLength y m)).map (fun j => ⟨y, m, j + 1, false⟩)

/-- The next-month fill days of `_buildDayGrid`. -/
def trailingDays (y m : Nat) : List CalendarDay :=
  (List.range (gridRows y m * 7 - (firstDayOfWeek y m + monthLength y m))).map
    (fun j => ⟨gridNextYear y m, gridNextMonth m, j + 1, true⟩)

/-- `CalendarMonth._buildDayGrid`. -/
def buildDayGrid (y m : Nat) : List CalendarDay :=
  leadingDays y m ++ (currentDays y m ++ trailingDays y m)

/-- A meaningful proleptic-Gregorian date. -/
def validDate (y m d : Nat) : Prop :=
  1 ≤ y ∧ m < 12 ∧ 1 ≤ d ∧ d ≤ monthLength y m

/-- The consecutive-dates relation between adjacent grid cells. -/
def succRel (a b : CalendarDay) : Prop :=
  (b.year, b.month, b.day) = succDate a.year a.month a.day

theorem monthLength_bounds (y m : Nat) : 28 ≤ monthLength y m ∧ monthLength y m ≤ 31 := by
  unfold monthLength
  split_ifs <;> omega

set_option maxHeartbeats 1600000 in
theorem leapsBefore_succ (y : Nat) (hy : 1 ≤ y) :
    leapsBefore (y + 1) = leapsBefore y + (if isLeap y then 1 else 0) := by
  obtain ⟨n, rfl⟩ : ∃ n, y = n + 1 := ⟨y - 1, by omega⟩
  have h4 : (n + 1) / 4 = n / 4 + (if (n + 1) % 4 = 0 then 1 else 0) := by
    rw [Nat.succ_div]
    congr 1
    by_cases c : (4:Nat) ∣ n + 1
    · rw [if_pos c, if_pos (by omega)]
    · rw [if_neg c, if_neg (by omega)]
  have h100 : (n + 1) / 100 = n / 100 + (if (n + 1) % 100 = 0 then 1 else 0) := by
    rw [Nat.succ_div]
    congr 1
    by_cases c : (100:Nat) ∣ n + 1
    · rw [if_pos c, if_pos (by omega)]
    · rw [if_neg c, if_neg (by omega)]
  have h400 : (n + 1) / 400 = n / 400 + (if (n + 1) % 400 = 0 then 1 else 0) := by
    rw [Nat.succ_div]
    congr 1
    by_cases c : (400:Nat) ∣ n + 1
    · rw [if_pos c, if_pos (by omega)]
    · rw [if_neg c, if_neg (by omega)]
  have hmono1 : n / 100 ≤ n / 4 := Nat.div_le_div_left (by norm_num) (by norm_num)
  have hmono2 : (n + 1) / 100 ≤ (n + 1) / 4 := Nat.div_le_div_left (by norm_num) (by norm_num)
  have hleap : (if isLeap (n + 1) then (1:Nat) else 0) =
      (if ((n + 1) % 4 = 0 ∧ (n + 1) % 100 ≠ 0) ∨ (n + 1) % 400 = 0 then 1 else 0) := by
    simp [isLeap]
  unfold leapsBefore
  simp only [Nat.add_sub_cancel]
  rw [h4, h100, h400, hleap]
  split_ifs <;> omega

theorem daysBeforeYear_succ (y : Nat) (hy : 1 ≤ y) :
    daysBeforeYear (y + 1) = daysBeforeYear y + 365 + (if isLeap y then 1 else 0) := by
  unfold daysBeforeYear
  rw [leapsBefore_succ y hy]
  rcases h : isLeap y <;> simp [h] <;> omega

theorem monthOffset_succ (y m : Nat) :
    monthOffset y (m + 1) = monthOffset y m + monthLength y m := by
  unfold monthOffset
  rw [List.range_succ]
  simp

theorem monthOffset_12 (y : Nat) :
    monthOffset y 12 = 365 + (if isLeap y then 1 else 0) := by
  have h : ∀ k, monthOffset y k = ((List.range k).map (monthLength y)).sum := fun _ => rfl
  rcases hL : isLeap y <;>
    simp [monthOffset, List.range_succ, monthLength, hL]

theorem dayNumber_succ (y m d : Nat) (h : validDate y m d) :
    dayNumber (succDate y m d).1 (succDate y m d).2.1 (succDate y m d).2.2 =
      dayNumber y m d + 1 := by
  obtain ⟨hy, hm, hd1, hd2⟩ := h
  unfold succDate
  by_cases h1 : d < monthLength y m
  · rw [if_pos h1]
    show dayNumber y m (d + 1) = dayNumber y m d + 1
    unfold dayNumber
    omega
  · have hd : d = monthLength y m := by omega
    by_cases h2 : m < 11
    · rw [if_neg h1, if_pos h2]
      show dayNumber y (m + 1) 1 = dayNumber y m d + 1
      unfold dayNumber
      rw [monthOffset_succ]
      have hpos := (monthLength_bounds y m).1
      omega
    · have hm11 : m = 11 := by omega
      subst hm11
      rw [if_neg h1, if_neg h2]
      show dayNumber (y + 1) 0 1 = dayNumber y 11 d + 1
      unfold dayNumber
      rw [daysBeforeYear_succ y hy]
      have h12 : monthOffset y 12 = 365 + (if isLeap y then 1 else 0) := monthOffset_12 y
      have hstep : monthOffset y 12 = monthOffset y 11 + monthLength y 11 := monthOffset_succ y 11
      have hlen : monthLength y 11 = 31 := by unfold monthLength; norm_num
      have h0 : monthOffset (y + 1) 0 = 0 := rfl
      rcases hL : isLeap y <;> rw [hL] at h12 <;> simp at h12 ⊢ <;> omega

theorem dayOfWeek_succ (y m d : Nat) (h : validDate y m d) :
    dayOfWeek (succDate y m d).1 (succDate y m d).2.1 (succDate y m d).2.2 =
      (dayOfWeek y m d + 1) % 7 := by
  unfold dayOfWeek
  rw [dayNumber_succ y m d h]
  omega

theorem firstDayOfWeek_lt (y m : Nat) : firstDayOfWeek y m < 7 :=
  Nat.mod_lt _ (by norm_num)

theorem chain'_map_range {α : Type} (R : α → α → Prop) (f : Nat → α) (n : Nat)
    (h : ∀ i, i + 1 < n → R (f i) (f (i + 1))) :
    List.Chain' R ((List.range n).map f) := by
  rw [List.chain'_map]
  rw [List.chain'_iff_get]
  intro i hi
  simp only [List.length_range] at hi
  simp only [List.get_eq_getElem, List.getElem_range]
  exact h i (by omega)

theorem getLast?_map_range {α : Type} (f : Nat → α) (n : Nat) :
    ((List.range n).map f).getLast? = if n = 0 then none else some (f (n - 1)) := by
  match n with
  | 0 => simp
  | k + 1 =>
    rw [List.range_succ, List.map_append]
    simp

theorem head?_map_range {α : Type} (f : Nat → α) (n : Nat) :
    ((List.range n).map f).head? = if n = 0 then none else some (f 0) := by
  match n with
  | 0 => simp
  | k + 1 =>
    rw [List.range_succ_eq_map]
    simp

theorem leading_length (y m : Nat) : (leadingDays y m).length = firstDayOfWeek y m := by
  simp [leadingDays]

theorem current_length (y m : Nat) : (currentDays y m).length = monthLength y m := by
  simp [currentDays]

theorem trailing_length (y m : Nat) :
    (trailingDays y m).length = gridRows y m * 7 - (firstDayOfWeek y m + monthLength y m) := by
  simp [trailingDays]

/-- Grid completeness, part 1: the grid has `rows × 7` cells. -/
theorem grid_length (y m : Nat) :
    (buildDayGrid y m).length = gridRows y m * 7 := by
  have h1 := leading_length y m
  have h2 := current_length y m
  have h3 := trailing_length y m
  have hfd := firstDayOfWeek_lt y m
  have hml := monthLength_bounds y m
  simp only [buildDayGrid, List.length_append, h1, h2, h3, gridRows] at *
  omega

/-- Grid completeness, part 2: the row count is 4, 5 or 6. -/
theorem grid_rows_bounds (y m : Nat) :
    gridRows y m = 4 ∨ gridRows y m = 5 ∨ gridRows y m = 6 := by
  have hfd := firstDayOfWeek_lt y m
  have hml := monthLength_bounds y m
  unfold gridRows
  omega

theorem chain'_leading (y m : Nat) (hm : m < 12) (hy : 2 ≤ y) :
    List.Chain' succRel (leadingDays y m) := by
  unfold leadingDays
  apply chain'_map_range
  intro i hi
  have hfd := firstDayOfWeek_lt y m
  have hml := monthLength_bounds (gridPrevYear y m) (gridPrevMonth m)
  unfold succRel succDate
  rw [if_pos (by omega :
    monthLength (gridPrevYear y m) (gridPrevMonth m) - (firstDayOfWeek y m - 1 - i) <
      monthLength (gridPrevYear y m) (gridPrevMonth m))]
  have hday : monthLength (gridPrevYear y m) (gridPrevMonth m) -
      (firstDayOfWeek y m - 1 - (i + 1)) =
    monthLength (gridPrevYear y m) (gridPrevMonth m) -
      (firstDayOfWeek y m - 1 - i) + 1 := by omega
  rw [hday]

theorem chain'_current (y m : Nat) : List.Chain' succRel (currentDays y m) := by
  unfold currentDays
  apply chain'_map_range
  intro i hi
  unfold succRel succDate
  rw [if_pos (by omega : i + 1 < monthLength y m)]

theorem chain'_trailing (y m : Nat) : List.Chain' succRel (trailingDays y m) := by
  unfold trailingDays
  apply chain'_map_range
  intro i hi
  have hfd := firstDayOfWeek_lt y m
  have hml := monthLength_bounds y m
  have hmln := monthLength_bounds (gridNextYear y m) (gridNextMonth m)
  have hrem : gridRows y m * 7 - (firstDayOfWeek y m + monthLength y m) ≤ 6 := by
    unfold gridRows
    omega
  unfold succRel succDate
  rw [if_pos (by omega : i + 1 < monthLength (gridNextYear y m) (gridNextMonth m))]

/-- The boundary step: the last day of the previous month is succeeded by
the first day of the target month. -/
theorem succ_prev_boundary (y m : Nat) (hm : m < 12) (hy : 1 ≤ y) :
    succDate (gridPrevYear y m) (gridPrevMonth m)
      (monthLength (gridPrevYear y m) (gridPrevMonth m)) = (y, m, 1) := by
  by_cases h0 : m = 0
  · subst h0
    have hpy : gridPrevYear y 0 = y - 1 := rfl
    have hpm : gridPrevMonth 0 = 11 := rfl
    have h31 : monthLength (y - 1) 11 = 31 := by unfold monthLength; norm_num
    rw [hpy, hpm, h31]
    unfold succDate
    rw [h31, if_neg (by omega), if_neg (by norm_num)]
    have hy1 : y - 1 + 1 = y := by omega
    rw [hy1]
  · have hpy : gridPrevYear y m = y := by unfold gridPrevYear; rw [if_neg h0]
    have hpm : gridPrevMonth m = m - 1 := by unfold gridPrevMonth; rw [if_neg h0]
    rw [hpy, hpm]
    unfold succDate
    have hnl : ¬ monthLength y (m - 1) < monthLength y (m - 1) := by omega
    rw [if_neg hnl, if_pos (by omega : m - 1 < 11)]
    have hm1 : m - 1 + 1 = m := by omega
    rw [hm1]

/-- The boundary step: the last day of the target month is succeeded by
the first day of the next month. -/
theorem succ_next_boundary (y m : Nat) (hm : m < 12) :
    succDate y m (monthLength y m) = (gridNextYear y m, gridNextMonth m, 1) := by
  have hnl : ¬ monthLength y m < monthLength y m := by omega
  by_cases h11 : m = 11
  · subst h11
    have hny : gridNextYear y 11 = y + 1 := rfl
    have hnm : gridNextMonth 11 = 0 := rfl
    rw [hny, hnm]
    unfold succDate
    rw [if_neg hnl, if_neg (by norm_num)]
  · have hny : gridNextYear y m = y := by unfold gridNextYear; rw [if_neg h11]
    have hnm : gridNextMonth m = m + 1 := by unfold gridNextMonth; rw [if_neg h11]
    rw [hny, hnm]
    unfold succDate
    rw [if_neg hnl, if_pos (by omega)]

/-- The grid is a chain of consecutive calendar dates: day-of-week
alignment is continuous across the month boundaries. -/
theorem grid_chain (y m : Nat) (hm : m < 12) (hy : 2 ≤ y) :
    List.Chain' succRel (buildDayGrid y m) := by
  unfold buildDayGrid
  rw [List.chain'_append]
  refine ⟨chain'_leading y m hm hy, ?_, ?_⟩
  · rw [List.chain'_append]
    refine ⟨chain'_current y m, chain'_trailing y m, ?_⟩
    intro x hx z hz
    unfold currentDays at hx
    rw [getLast?_map_range] at hx
    have hml := monthLength_bounds y m
    rw [if_neg (by omega)] at hx
    unfold trailingDays at hz
    rw [head?_map_range] at hz
    by_cases hrem : gridRows y m * 7 - (firstDayOfWeek y m + monthLength y m) = 0
    · rw [if_pos hrem] at hz
      cases hz
    · rw [if_neg hrem] at hz
      cases Option.some_inj.mp hx
      cases Option.some_inj.mp hz
      unfold succRel
      show (gridNextYear y m, gridNextMonth m, 1) = succDate y m (monthLength y m - 1 + 1)
      rw [show monthLength y m - 1 + 1 = monthLength y m by omega]
      exact (succ_next_boundary y m hm).symm
  · intro x hx z hz
    unfold leadingDays at hx
    rw [getLast?_map_range] at hx
    by_cases hfd0 : firstDayOfWeek y m = 0
    · rw [if_pos hfd0] at hx
      cases hx
    · rw [if_neg hfd0] at hx
      cases Option.some_inj.mp hx
      have hml := monthLength_bounds y m
      have hhead : (currentDays y m ++ trailingDays y m).head? =
          some (⟨y, m, 1, false⟩ : CalendarDay) := by
        rw [List.head?_append]
        unfold currentDays
        rw [head?_map_range, if_neg (by omega)]
        rfl
      rw [hhead] at hz
      cases Option.some_inj.mp hz
      unfold succRel
      show (y, m, 1) = succDate (gridPrevYear y m) (gridPrevMonth m)
        (monthLength (gridPrevYear y m) (gridPrevMonth m) -
          (firstDayOfWeek y m - 1 - (firstDayOfWeek y m - 1)))
      rw [show firstDayOfWeek y m - 1 - (firstDayOfWeek y m - 1) = 0 by omega,
        Nat.sub_zero]
      exact (succ_prev_boundary y m hm (by omega)).symm

theorem leading_not_current (y m : Nat) (hm : m < 12) (hy : 2 ≤ y) :
    ∀ c ∈ leadingDays y m, ¬ (c.year = y ∧ c.month = m) := by
  intro c hc
  unfold leadingDays at hc
  rcases List.mem_map.mp hc with ⟨j, hj, rfl⟩
  rintro ⟨h1, h2⟩
  have h1b : gridPrevYear y m = y := h1
  have h2b : gridPrevMonth m = m := h2
  unfold gridPrevYear at h1b
  unfold gridPrevMonth at h2b
  by_cases h0 : m = 0
  · rw [if_pos h0] at h1b
    omega
  · rw [if_neg h0] at h2b
    omega

theorem trailing_not_current (y m : Nat) (hm : m < 12) :
    ∀ c ∈ trailingDays y m, ¬ (c.year = y ∧ c.month = m) := by
  intro c hc
  unfold trailingDays at hc
  rcases List.mem_map.mp hc with ⟨j, hj, rfl⟩
  rintro ⟨h1, h2⟩
  have h1b : gridNextYear y m = y := h1
  have h2b : gridNextMonth m = m := h2
  unfold gridNextYear at h1b
  unfold gridNextMonth at h2b
  by_cases h11 : m = 11
  · rw [if_pos h11] at h1b
    omega
  · rw [if_neg h11] at h2b
    omega

/-- Grid completeness, part 3: filtering the grid to the target month
yields exactly the month's days, once each, in ascending order. -/
theorem grid_filter_current (y m : Nat) (hm : m < 12) (hy : 2 ≤ y) :
    (buildDayGrid y m).filter (fun c => c.year == y && c.month == m) =
      (List.range (monthLength y m)).map (fun j => ⟨y, m, j + 1, false⟩) := by
  unfold buildDayGrid
  rw [List.filter_append, List.filter_append]
  have hlead : (leadingDays y m).filter (fun c => c.year == y && c.month == m) = [] := by
    rw [List.filter_eq_nil_iff]
    intro c hc
    have := leading_not_current y m hm hy c hc
    simp only [Bool.and_eq_true, beq_iff_eq]
    exact fun h => this h
  have htrail : (trailingDays y m).filter (fun c => c.year == y && c.month == m) = [] := by
    rw [List.filter_eq_nil_iff]
    intro c hc
    have := trailing_not_current y m hm c hc
    simp only [Bool.and_eq_true, beq_iff_eq]
    exact fun h => this h
  have hcur : (currentDays y m).filter (fun c => c.year == y && c.month == m) =
      currentDays y m := by
    rw [List.filter_eq_self]
    intro c hc
    unfold currentDays at hc
    rcases List.mem_map.mp hc with ⟨j, hj, rfl⟩
    simp
  rw [hlead, htrail, hcur]
  simp [currentDays]

/-- Fill days are exactly the cells marked `outside`. -/
theorem grid_outside_iff (y m : Nat) (hm : m < 12) (hy : 2 ≤ y) :
    ∀ c ∈ buildDayGrid y m, (c.outside = false ↔ (c.year = y ∧ c.month = m)) := by
  intro c hc
  unfold buildDayGrid at hc
  rcases List.mem_append.mp hc with hc | hc
  · have hno := leading_not_current y m hm hy c hc
    unfold leadingDays at hc
    rcases List.mem_map.mp hc with ⟨j, hj, rfl⟩
    simpa using hno
  · rcases List.mem_append.mp hc with hc | hc
    · unfold currentDays at hc
      rcases List.mem_map.mp hc with ⟨j, hj, rfl⟩
      simp
    · have hno := trailing_not_current y m hm c hc
      unfold trailingDays at hc
      rcases List.mem_map.mp hc with ⟨j, hj, rfl⟩
      simpa using hno

/-- Every grid cell belongs to the target month or to one of the two
adjacent months. -/
theorem grid_adjacent (y m : Nat) :
    ∀ c ∈ buildDayGrid y m,
      (c.year = y ∧ c.month = m) ∨
      (c.year = gridPrevYear y m ∧ c.month = gridPrevMonth m) ∨
      (c.year = gridNextYear y m ∧ c.month = gridNextMonth m) := by
  intro c hc
  unfold buildDayGrid at hc
  rcases List.mem_append.mp hc with hc | hc
  · unfold leadingDays at hc
    rcases List.mem_map.mp hc with ⟨j, hj, rfl⟩
    exact Or.inr (Or.inl ⟨rfl, rfl⟩)
  · rcases List.mem_append.mp hc with hc | hc
    · unfold currentDays at hc
      rcases List.mem_map.mp hc with ⟨j, hj, rfl⟩
      exact Or.inl ⟨rfl, rfl⟩
    · unfold trailingDays at hc
      rcases List.mem_map.mp hc with ⟨j, hj, rfl⟩
      exact Or.inr (Or.inr ⟨rfl, rfl⟩)

/-- The target month's first day sits at grid index `firstDayOfWeek`. -/
theorem grid_anchor (y m : Nat) :
    (buildDayGrid y m)[firstDayOfWeek y m]? = some ⟨y, m, 1, false⟩ := by
  unfold buildDayGrid
  rw [List.getElem?_append_right (le_of_eq (leading_length y m)), leading_length y m,
    Nat.sub_self,
    List.getElem?_append_left (by
      rw [current_length]
      have := (monthLength_bounds y m).1
      omega)]
  unfold currentDays
  rw [List.getElem?_map, List.getElem?_range (by
    have := (monthLength_bounds y m).1
    omega)]
  rfl

/-- Every grid cell is a meaningful calendar date. -/
theorem grid_valid (y m : Nat) (hm : m < 12) (hy : 2 ≤ y) :
    ∀ c ∈ buildDayGrid y m, validDate c.year c.month c.day := by
  intro c hc
  have hfd := firstDayOfWeek_lt y m
  unfold buildDayGrid at hc
  rcases List.mem_append.mp hc with hc | hc
  · have hml := monthLength_bounds (gridPrevYear y m) (gridPrevMonth m)
    unfold leadingDays at hc
    rcases List.mem_map.mp hc with ⟨j, hj, rfl⟩
    simp only [List.mem_range] at hj
    show validDate (gridPrevYear y m) (gridPrevMonth m)
      (monthLength (gridPrevYear y m) (gridPrevMonth m) - (firstDayOfWeek y m - 1 - j))
    have hpy : 1 ≤ gridPrevYear y m := by
      unfold gridPrevYear
      by_cases h0 : m = 0 <;> simp [h0] <;> omega
    have hpm : gridPrevMonth m < 12 := by
      unfold gridPrevMonth
      by_cases h0 : m = 0 <;> simp [h0] <;> omega
    exact ⟨hpy, hpm, by omega, by omega⟩
  · rcases List.mem_append.mp hc with hc | hc
    · unfold currentDays at hc
      rcases List.mem_map.mp hc with ⟨j, hj, rfl⟩
      simp only [List.mem_range] at hj
      show validDate y m (j + 1)
      exact ⟨by omega, by omega, by omega, by omega⟩
    · have hml := monthLength_bounds y m
      have hmln := monthLength_bounds (gridNextYear y m) (gridNextMonth m)
      unfold trailingDays at hc
      rcases List.mem_map.mp hc with ⟨j, hj, rfl⟩
      simp only [List.mem_range] at hj
      show validDate (gridNextYear y m) (gridNextMonth m) (j + 1)
      have hrem : gridRows y m * 7 - (firstDayOfWeek y m + monthLength y m) ≤ 6 := by
        unfold gridRows
        omega
      have hny : 1 ≤ gridNextYear y m := by
        unfold gridNextYear
        by_cases h11 : m = 11 <;> simp [h11] <;> omega
      have hnm : gridNextMonth m < 12 := by
        unfold gridNextMonth
        by_cases h11 : m = 11 <;> simp [h11] <;> omega
      exact ⟨hny, hnm, by omega, by omega⟩

theorem chain'_getElem? {α : Type} {R : α → α → Prop} :
    ∀ {l : List α}, List.Chain' R l → ∀ i a b, l[i]? = some a → l[i + 1]? = some b → R a b := by
  intro l
  induction l with
  | nil => intro _ i a b ha; simp at ha
  | cons x t ih =>
    intro hch i a b ha hb
    rcases List.chain'_cons'.mp hch with ⟨hhead, htail⟩
    match i with
    | 0 =>
      have hax : a = x := by simpa using ha.symm
      subst hax
      have hbh : t.head? = some b := by
        match t, hb with
        | u :: v, hb => simpa using hb
      exact hhead b hbh
    | k + 1 =>
      exact ih htail k a b (by simpa using ha) (by simpa using hb)

theorem grid_dayNumber (y m : Nat) (hm : m < 12) (hy : 2 ≤ y) :
    ∀ i c c0, (buildDayGrid y m)[i]? = some c → (buildDayGrid y m)[0]? = some c0 →
      dayNumber c.year c.month c.day = dayNumber c0.year c0.month c0.day + i := by
  intro i
  induction i with
  | zero =>
    intro c c0 h h0
    rw [h] at h0
    cases Option.some_inj.mp h0
    rfl
  | succ k ih =>
    intro c c0 h h0
    have hk1 : k + 1 < (buildDayGrid y m).length := (List.getElem?_eq_some_iff.mp h).1
    have hk : k < (buildDayGrid y m).length := by omega
    have hck : (buildDayGrid y m)[k]? = some ((buildDayGrid y m)[k]) :=
      List.getElem?_eq_getElem hk
    have hR := chain'_getElem? (grid_chain y m hm hy) k _ _ hck h
    have hvalid := grid_valid y m hm hy _ (List.getElem_mem hk)
    have hdn := dayNumber_succ _ _ _ hvalid
    unfold succRel at hR
    have hyr : c.year = (succDate ((buildDayGrid y m)[k]).year ((buildDayGrid y m)[k]).month
        ((buildDayGrid y m)[k]).day).1 := congrArg (fun t => t.1) hR
    have hmo : c.month = (succDate ((buildDayGrid y m)[k]).year ((buildDayGrid y m)[k]).month
        ((buildDayGrid y m)[k]).day).2.1 := congrArg (fun t => t.2.1) hR
    have hda : c.day = (succDate ((buildDayGrid y m)[k]).year ((buildDayGrid y m)[k]).month
        ((buildDayGrid y m)[k]).day).2.2 := congrArg (fun t => t.2.2) hR
    rw [hyr, hmo, hda, hdn, ih _ c0 hck h0]
    omega

theorem grid_head_dow (y m : Nat) (hm : m < 12) (hy : 2 ≤ y) :
    ∀ c0, (buildDayGrid y m)[0]? = some c0 →
      dayOfWeek c0.year c0.month c0.day = 0 := by
  intro c0 h0
  by_cases hfd0 : firstDayOfWeek y m = 0
  · have hanchor := grid_anchor y m
    rw [hfd0] at hanchor
    rw [h0] at hanchor
    cases Option.some_inj.mp hanchor
    show dayOfWeek y m 1 = 0
    rw [show dayOfWeek y m 1 = firstDayOfWeek y m from rfl, hfd0]
  · -- the grid starts with the leading fill days
    have hfd := firstDayOfWeek_lt y m
    have hml := monthLength_bounds (gridPrevYear y m) (gridPrevMonth m)
    have h0l : 0 < (leadingDays y m).length := by
      rw [leading_length]
      omega
    have h1 : (buildDayGrid y m)[0]? = (leadingDays y m)[0]? := by
      unfold buildDayGrid
      rw [List.getElem?_append_left h0l]
    have h2 : (leadingDays y m)[0]? =
        some (⟨gridPrevYear y m, gridPrevMonth m,
          monthLength (gridPrevYear y m) (gridPrevMonth m) - (firstDayOfWeek y m - 1 - 0),
          true⟩ : CalendarDay) := by
      unfold leadingDays
      rw [List.getElem?_map, List.getElem?_range (by omega)]
      rfl
    rw [h0, h2] at h1
    cases Option.some_inj.mp h1
    show dayOfWeek (gridPrevYear y m) (gridPrevMonth m)
      (monthLength (gridPrevYear y m) (gridPrevMonth m) - (firstDayOfWeek y m - 1 - 0)) = 0
    have hvP : validDate (gridPrevYear y m) (gridPrevMonth m)
        (monthLength (gridPrevYear y m) (gridPrevMonth m)) := by
      have hpy : 1 ≤ gridPrevYear y m := by
        unfold gridPrevYear
        by_cases hc : m = 0 <;> simp [hc] <;> omega
      have hpm : gridPrevMonth m < 12 := by
        unfold gridPrevMonth
        by_cases hc : m = 0 <;> simp [hc] <;> omega
      exact ⟨hpy, hpm, by omega, by omega⟩
    have hsucc := dayNumber_succ _ _ _ hvP
    rw [succ_prev_boundary y m hm (by omega)] at hsucc
    have hsucc2 : dayNumber y m 1 = dayNumber (gridPrevYear y m) (gridPrevMonth m)
        (monthLength (gridPrevYear y m) (gridPrevMonth m)) + 1 := hsucc
    have hD : dayNumber (gridPrevYear y m) (gridPrevMonth m)
        (monthLength (gridPrevYear y m) (gridPrevMonth m)) =
      daysBeforeYear (gridPrevYear y m) + monthOffset (gridPrevYear y m) (gridPrevMonth m) +
        (monthLength (gridPrevYear y m) (gridPrevMonth m) - 1) := rfl
    have hD0 : dayNumber (gridPrevYear y m) (gridPrevMonth m)
        (monthLength (gridPrevYear y m) (gridPrevMonth m) - (firstDayOfWeek y m - 1 - 0)) =
      daysBeforeYear (gridPrevYear y m) + monthOffset (gridPrevYear y m) (gridPrevMonth m) +
        (monthLength (gridPrevYear y m) (gridPrevMonth m) - (firstDayOfWeek y m - 1 - 0) - 1) :=
      rfl
    have hfdef : firstDayOfWeek y m = (dayNumber y m 1 + 1) % 7 := rfl
    show (dayNumber (gridPrevYear y m) (gridPrevMonth m)
        (monthLength (gridPrevYear y m) (gridPrevMonth m) - (firstDayOfWeek y m - 1 - 0)) + 1)
      % 7 = 0
    omega

/-- Day-of-week alignment: cell `i` of the grid falls on weekday `i % 7`. -/
theorem grid_dow (y m : Nat) (hm : m < 12) (hy : 2 ≤ y) :
    ∀ i c, (buildDayGrid y m)[i]? = some c →
      dayOfWeek c.year c.month c.day = i % 7 := by
  intro i c h
  have hlen : i < (buildDayGrid y m).length := (List.getElem?_eq_some_iff.mp h).1
  have h0lt : 0 < (buildDayGrid y m).length := by omega
  have h0 : (buildDayGrid y m)[0]? = some ((buildDayGrid y m)[0]) :=
    List.getElem?_eq_getElem h0lt
  have hdn := grid_dayNumber y m hm hy i c _ h h0
  have hhead := grid_head_dow y m hm hy _ h0
  unfold dayOfWeek at hhead ⊢
  rw [hdn]
  omega

/-- Claim-facing specification of the month grid builder: `rows × 7`
cells with rows 4, 5 or 6; every day of the target month appears
exactly once, in ascending order, and exactly those cells are inside the
month; fill cells belong to the two adjacent months; the cells form a
chain of consecutive calendar dates; the month's first day sits at index
`firstDayOfWeek`; and cell `i` falls on weekday `i % 7`. -/
def gridSpec (y m : Nat) : Prop :=
  (buildDayGrid y m).length = gridRows y m * 7 ∧
  (gridRows y m = 4 ∨ gridRows y m = 5 ∨ gridRows y m = 6) ∧
  (buildDayGrid y m).filter (fun c => c.year == y && c.month == m) =
    (List.range (monthLength y m)).map (fun j => ⟨y, m, j + 1, false⟩) ∧
  (∀ c ∈ buildDayGrid y m, (c.outside = false ↔ (c.year = y ∧ c.month = m))) ∧
  (∀ c ∈ buildDayGrid y m,
    (c.year = y ∧ c.month = m) ∨
    (c.year = gridPrevYear y m ∧ c.month = gridPrevMonth m) ∨
    (c.year = gridNextYear y m ∧ c.month = gridNextMonth m)) ∧
  List.Chain' succRel (buildDayGrid y m) ∧
  (buildDayGrid y m)[firstDayOfWeek y m]? = some ⟨y, m, 1, false⟩ ∧
  (∀ i c, (buildDayGrid y m)[i]? = some c → dayOfWeek c.year c.month c.day = i % 7)

/-- Claim C5: the month grid builder satisfies `gridSpec` for every real
month (0-based `m < 12`; `2 ≤ y` keeps the previous year meaningful in
the natural-number embedding of proleptic-Gregorian years). -/
theorem month_grid_correct (y m : Nat) (hm : m < 12) (hy : 2 ≤ y) : gridSpec y m :=
  ⟨grid_length y m, grid_rows_bounds y m, grid_filter_current y m hm hy,
    grid_outside_iff y m hm hy, grid_adjacent y m, grid_chain y m hm hy,
    grid_anchor y m, grid_dow y m hm hy⟩

/-- Witness for claim C5 at February 2026. -/
theorem month_grid_correct_witness : (1 < 12 ∧ 2 ≤ 2026) ∧ gridSpec 2026 1 :=
  ⟨by norm_num, month_grid_correct 2026 1 (by norm_num) (by norm_num)⟩

/-- Decimal value of a digit string (model of the number parsing done by
the JavaScript `Date` constructor on ISO date strings). -/
def readNat (cs : List Char) : Nat := cs.foldl (fun a c => a * 10 + (c.toNat - 48)) 0

/-- Split a character list at every dash. -/
def splitDash : List Char → List (List Char)
  | [] => [[]]
  | c :: rest =>
    if c = '-' then [] :: splitDash rest
    else
      match splitDash rest with
      | [] => [[c]]
      | g :: gs => (c :: g) :: gs

/-- Parse an ISO `YYYY-MM-DD` string into a `(year, month, day)` triple
with a 0-based month — the model of
`new Date(iso + "T00:00:00")` followed by `getFullYear`, `getMonth`,
`getDate` in `CalendarExport._addOneDay`. -/
def parseISOTriple (s : String) : Nat × Nat × Nat :=
  match splitDash s.data with
  | [ys, ms, ds] => (readNat ys, readNat ms - 1, readNat ds)
  | _ => (0, 0, 0)

/-- `CalendarExport._addOneDay`: parse, advance one calendar day
(`setDate(getDate() + 1)`), re-format as `YYYY-MM-DD`. -/
def addOneDay (s : String) : String :=
  dateKey (succDate (parseISOTriple s).1 (parseISOTriple s).2.1 (parseISOTriple s).2.2).1
    (succDate (parseISOTriple s).1 (parseISOTriple s).2.1 (parseISOTriple s).2.2).2.1
    (succDate (parseISOTriple s).1 (parseISOTriple s).2.1 (parseISOTriple s).2.2).2.2

theorem readNat_append (l : List Char) (c : Char) :
    readNat (l ++ [c]) = 10 * readNat l + (c.toNat - 48) := by
  unfold readNat
  rw [List.foldl_append]
  simp
  omega

theorem digit_toNat (n : Nat) (h : n < 10) : (digitChar n).toNat = 48 + n := by
  interval_cases n <;> decide

theorem digit_ne_dash (n : Nat) (h : n < 10) : digitChar n ≠ '-' := by
  interval_cases n <;> decide

theorem readNat_natDigits : ∀ n, readNat (natDigits n) = n := by
  intro n
  induction n using Nat.strong_induction_on with
  | _ n ih =>
    rw [natDigits_eq]
    by_cases h : n < 10
    · rw [if_pos h]
      show readNat [digitChar n] = n
      unfold readNat
      simp [digit_toNat n h]
    · rw [if_neg h]
      rw [readNat_append, ih (n / 10) (Nat.div_lt_self (by omega) (by omega)),
        digit_toNat (n % 10) (by omega)]
      omega

theorem natDigits_no_dash : ∀ n, ∀ c ∈ natDigits n, c ≠ '-' := by
  intro n
  induction n using Nat.strong_induction_on with
  | _ n ih =>
    intro c hc
    rw [natDigits_eq] at hc
    by_cases h : n < 10
    · rw [if_pos h] at hc
      rcases List.mem_singleton.mp hc with rfl
      exact digit_ne_dash n h
    · rw [if_neg h] at hc
      rcases List.mem_append.mp hc with hc | hc
      · exact ih (n / 10) (Nat.div_lt_self (by omega) (by omega)) c hc
      · rcases List.mem_singleton.mp hc with rfl
        exact digit_ne_dash (n % 10) (by omega)

theorem pad2_no_dash (n : Nat) : ∀ c ∈ pad2 n, c ≠ '-' := by
  intro c hc
  unfold pad2 at hc
  by_cases h : n < 10
  · rw [if_pos h] at hc
    rcases List.mem_cons.mp hc with rfl | hc
    · decide
    · exact natDigits_no_dash n c hc
  · rw [if_neg h] at hc
    exact natDigits_no_dash n c hc

theorem readNat_pad2 (n : Nat) : readNat (pad2 n) = n := by
  unfold pad2
  by_cases h : n < 10
  · rw [if_pos h]
    have hz : readNat ('0' :: natDigits n) = readNat (natDigits n) := by
      unfold readNat
      rw [List.foldl_cons]
      rw [show (Nat.mul 0 10 + ('0'.toNat - 48) : Nat) = 0 from by decide]
    rw [hz, readNat_natDigits]
  · rw [if_neg h, readNat_natDigits]

theorem splitDash_no_dash (l : List Char) (h : ∀ c ∈ l, c ≠ '-') : splitDash l = [l] := by
  induction l with
  | nil => rfl
  | cons c rest ih =>
    conv_lhs => rw [splitDash]
    rw [if_neg (h c (List.mem_cons_self c rest))]
    rw [ih (fun x hx => h x (List.mem_cons_of_mem c hx))]

theorem splitDash_append (a b : List Char) (h : ∀ c ∈ a, c ≠ '-') :
    splitDash (a ++ '-' :: b) = a :: splitDash b := by
  induction a with
  | nil =>
    show splitDash ('-' :: b) = [] :: splitDash b
    conv_lhs => rw [splitDash]
    rw [if_pos rfl]
  | cons c rest ih =>
    show splitDash (c :: (rest ++ '-' :: b)) = (c :: rest) :: splitDash b
    conv_lhs => rw [splitDash]
    rw [if_neg (h c (List.mem_cons_self c rest))]
    rw [ih (fun x hx => h x (List.mem_cons_of_mem c hx))]

theorem parse_dateKey (y m d : Nat) : parseISOTriple (dateKey y m d) = (y, m, d) := by
  unfold parseISOTriple dateKey
  rw [show (String.mk (natDigits y ++ '-' :: (pad2 (m + 1) ++ '-' :: pad2 d))).data =
    natDigits y ++ '-' :: (pad2 (m + 1) ++ '-' :: pad2 d) from rfl]
  rw [splitDash_append _ _ (natDigits_no_dash y),
    splitDash_append _ _ (pad2_no_dash (m + 1)),
    splitDash_no_dash _ (pad2_no_dash d)]
  show (readNat (natDigits y), readNat (pad2 (m + 1)) - 1, readNat (pad2 d)) = (y, m, d)
  rw [readNat_natDigits, readNat_pad2, readNat_pad2]
  rw [Nat.add_sub_cancel]

/-- The add-one-day string operation is exactly the calendar successor,
also across month and year boundaries. -/
theorem addOneDay_dateKey (y m d : Nat) :
    addOneDay (dateKey y m d) =
      dateKey (succDate y m d).1 (succDate y m d).2.1 (succDate y m d).2.2 := by
  unfold addOneDay
  rw [parse_dateKey]

/-- The global dash-removal replacement of `_generateIcs`. -/
def stripDashes (s : String) : String := String.mk (s.data.filter (fun c => c != '-'))

/-- `.replace(/\\/g, "\\\\")` at character level. -/
def escBackslash (c : Char) : List Char := if c = '\\' then ['\\', '\\'] else [c]

/-- `.replace(/;/g, "\\;")` at character level. -/
def escSemi (c : Char) : List Char := if c = ';' then ['\\', ';'] else [c]

/-- `.replace(/,/g, "\\,")` at character level. -/
def escComma (c : Char) : List Char := if c = ',' then ['\\', ','] else [c]

/-- `.replace(/\n/g, "\\n")` at character level. -/
def escNewline (c : Char) : List Char := if c = '\n' then ['\\', 'n'] else [c]

/-- `CalendarExport._escIcs`: the four sequential global replacements. -/
def escIcs (s : String) : String :=
  String.mk ((((s.data.flatMap escBackslash).flatMap escSemi).flatMap escComma).flatMap
    escNewline)

/-- The RFC 5545 §3.3.11 TEXT escaping, as a single pass over the
characters (claim-facing definition). -/
def rfcEscapeChar (c : Char) : List Char :=
  if c = '\\' then ['\\', '\\']
  else if c = ';' then ['\\', ';']
  else if c = ',' then ['\\', ',']
  else if c = '\n' then ['\\', 'n']
  else [c]

theorem escIcs_singlePass (s : String) :
    escIcs s = String.mk (s.data.flatMap rfcEscapeChar) := by
  unfold escIcs
  congr 1
  rw [List.flatMap_assoc, List.flatMap_assoc, List.flatMap_assoc]
  refine List.flatMap_congr (fun c _ => ?_)
  by_cases h1 : c = '\\'
  · subst h1
    decide
  · by_cases h2 : c = ';'
    · subst h2
      decide
    · by_cases h3 : c = ','
      · subst h3
        decide
      · by_cases h4 : c = '\n'
        · subst h4
          decide
        · simp [escBackslash, escSemi, escComma, escNewline, rfcEscapeChar, h1, h2, h3, h4]

/-- `CalendarExport._buildLocation`. -/
def buildLocation (e : Event) : String :=
  if e.venue = "" then ""
  else if e.state = "" then e.venue
  else e.venue ++ ", " ++ e.state

/-- `CalendarExport._buildDescription`. -/
def buildDescription (e : Event) : String :=
  String.intercalate "\n"
    ((if e.disciplines.isEmpty then []
      else ["Disciplines: " ++ String.intercalate ", " e.disciplines]) ++
     (match e.circuit with
      | some c => ["Circuit: " ++ c]
      | none => []) ++
     (if e.sourceUrl = "" then [] else [e.sourceUrl]))

/-- The `lines` array of `CalendarExport._generateIcs` (the `DTSTAMP`
value is the formatted current time, passed in as `now`). -/
def icsLines (now : String) (e : Event) : List String :=
  ["BEGIN:VCALENDAR",
   "VERSION:2.0",
   "PRODID:-//Sim.Sports//Race Calendar//EN",
   "BEGIN:VEVENT",
   "UID:" ++ e.id ++ "@sim.sports",
   "DTSTAMP:" ++ now,
   "DTSTART;VALUE=DATE:" ++ stripDashes e.dateStart,
   "DTEND;VALUE=DATE:" ++ stripDashes (addOneDay e.dateEnd),
   "SUMMARY:" ++ escIcs e.name,
   "LOCATION:" ++ escIcs (buildLocation e),
   "DESCRIPTION:" ++ escIcs (buildDescription e),
   "BEGIN:VALARM",
   "TRIGGER:-P1D",
   "ACTION:DISPLAY",
   "DESCRIPTION:" ++ escIcs e.name ++ " starts tomorrow",
   "END:VALARM",
   "END:VEVENT",
   "END:VCALENDAR"]

/-- `CalendarExport._generateIcs`: `lines.join("\r\n")`. -/
def generateIcs (now : String) (e : Event) : String :=
  String.intercalate "\r\n" (icsLines now e)

/-- Claim C8: the generated calendar object carries a `DTEND` equal to
the inclusive end date plus one calendar day (`succDate`, which advances
the day ordinal by exactly one, across month and year boundaries), RFC
5545 §3.3.11-escaped text fields, and a one-day-before `VALARM`
(`TRIGGER:-P1D`). -/
theorem ics_export (now : String) (e : Event) (y m d : Nat)
    (hend : e.dateEnd = dateKey y m d) (hy : 1 ≤ y) (hm : m < 12)
    (hd1 : 1 ≤ d) (hd2 : d ≤ monthLength y m) :
    (addOneDay e.dateEnd =
      dateKey (succDate y m d).1 (succDate y m d).2.1 (succDate y m d).2.2) ∧
    dayNumber (succDate y m d).1 (succDate y m d).2.1 (succDate y m d).2.2 =
      dayNumber y m d + 1 ∧
    ("DTEND;VALUE=DATE:" ++ stripDashes (addOneDay e.dateEnd)) ∈ icsLines now e ∧
    ("SUMMARY:" ++ escIcs e.name) ∈ icsLines now e ∧
    (∀ s : String, escIcs s = String.mk (s.data.flatMap rfcEscapeChar)) ∧
    "TRIGGER:-P1D" ∈ icsLines now e ∧
    generateIcs now e = String.intercalate "\r\n" (icsLines now e) := by
  refine ⟨by rw [hend]; exact addOneDay_dateKey y m d,
    dayNumber_succ y m d ⟨hy, hm, hd1, hd2⟩, ?_, ?_, escIcs_singlePass, ?_, rfl⟩
  · simp [icsLines]
  · simp [icsLines]
  · simp [icsLines]

/-- A sample event ending on 2026-12-31, crossing the year boundary. -/
def yearEndEvent : Event :=
  { sampleEvent with
    id := "imd-9", name := "Year End Camp",
    dateStart := "2026-12-28", dateEnd := "2026-12-31" }

/-- Witness for claim C8 at the year boundary: the inclusive end
2026-12-31 yields the exclusive DTEND date 2027-01-01. -/
theorem ics_export_witness :
    (yearEndEvent.dateEnd = dateKey 2026 11 31 ∧ 1 ≤ 2026 ∧ 11 < 12 ∧ 1 ≤ 31 ∧
      31 ≤ monthLength 2026 11) ∧
    ((addOneDay yearEndEvent.dateEnd =
        dateKey (succDate 2026 11 31).1 (succDate 2026 11 31).2.1 (succDate 2026 11 31).2.2) ∧
      dayNumber (succDate 2026 11 31).1 (succDate 2026 11 31).2.1 (succDate 2026 11 31).2.2 =
        dayNumber 2026 11 31 + 1 ∧
      ("DTEND;VALUE=DATE:" ++ stripDashes (addOneDay yearEndEvent.dateEnd)) ∈
        icsLines "20260101T000000Z" yearEndEvent ∧
      ("SUMMARY:" ++ escIcs yearEndEvent.name) ∈ icsLines "20260101T000000Z" yearEndEvent ∧
      (∀ s : String, escIcs s = String.mk (s.data.flatMap rfcEscapeChar)) ∧
      "TRIGGER:-P1D" ∈ icsLines "20260101T000000Z" yearEndEvent ∧
      generateIcs "20260101T000000Z" yearEndEvent =
        String.intercalate "\r\n" (icsLines "20260101T000000Z" yearEndEvent)) :=
  ⟨⟨by decide, by decide, by decide, by decide, by decide⟩,
    ics_export "20260101T000000Z" yearEndEvent 2026 11 31 (by decide) (by decide) (by decide)
      (by decide) (by decide)⟩

end PCSS
